import Mathlib

/-!
# File identifiers of the dejavu snapshot engine

Shallow embedding of `entity/file.go`: the `File` entity, the provisional
identifier computed by `genCheckID` (called from `NewFile`) and its completion by
`File.GenTrueID`.

Modelling conventions.

* A Go `string` is a sequence of bytes and `s[:n]` counts bytes.  A string is a
  `List Char` here, one `Char` standing for one byte.
* `int64` values are `Int`.  The only arithmetic is `Updated / 1000`, which
  cannot overflow, so the theorems hold for every `Int`, in particular for
  every `int64`.  Go's `/` truncates toward zero: `Int.tdiv`.
* A slice expression out of range panics in Go; `sliceTo` returns `none` and
  the functions that slice return an `Option`.
* `util.Hash` lies outside `entity/file.go`; every function that calls it takes
  it as the parameter `Hash`.
* `Repo.Index` and `Repo.Checkout` are called by `repo_test.go` but are not among
  the sources; they are modelled from the specification, on top of `NewFile`
  and `GenTrueID`.
-/

namespace Dejavu

/-- Go `string`: a sequence of bytes, one `Char` for each byte. -/
abbrev GoString := List Char

/-- Go `type File struct`. -/
structure File where
  ID : GoString
  Path : GoString
  Size : Int
  Updated : Int
  Chunks : List GoString
deriving DecidableEq

def TimestampIndex : Nat := 22

def ChunkHashIndex : Nat := 32

def IDLen : Nat := 40

/-- Go slice expression `s[:n]`: panics (here `none`) when `n > len(s)`. -/
def sliceTo (s : GoString) (n : Nat) : Option GoString :=
  if n ≤ s.length then some (s.take n) else none

/-- Go `fmt.Sprintf("%0[1]*[2]x", width, v)` for an integer `v`: the lowercase
hexadecimal digits of `|v|`, padded on the left with `'0'` up to `width`
characters, the sign `'-'` of a negative `v` counting as one of them.  Nothing
is cut off when the digits are more than `width`. -/
def sprintfZeroHex (width : Nat) (v : Int) : GoString :=
  let digits := Nat.toDigits 16 v.natAbs
  if v < 0 then
    '-' :: (List.replicate (width - 1 - digits.length) '0' ++ digits)
  else
    List.replicate (width - digits.length) '0' ++ digits

/-- Go `func (f *File) SecUpdated() int64`. -/
def File.SecUpdated (f : File) : Int :=
  f.Updated.tdiv 1000

/-- Go `func genCheckID(f *File) string`. -/
def genCheckID (Hash : GoString → GoString) (f : File) : Option GoString :=
  let pathHash := Hash f.Path
  let TimestampLen := ChunkHashIndex - TimestampIndex
  let updated := sprintfZeroHex TimestampLen (f.Updated.tdiv 1000)
  let ChunkHashLen := IDLen - ChunkHashIndex
  (sliceTo pathHash TimestampIndex).bind fun p =>
  (sliceTo updated TimestampLen).bind fun u =>
  some (p ++ u ++ sprintfZeroHex ChunkHashLen 0)

/-- Go `func NewFile(path string, size int64, updated int64) (ret *File)`. -/
def NewFile (Hash : GoString → GoString) (path : GoString) (size updated : Int) :
    Option File :=
  let ret : File := { ID := [], Path := path, Size := size, Updated := updated, Chunks := [] }
  (genCheckID Hash ret).map fun id => { ret with ID := id }

/-- The loop `for _, chunk := range f.Chunks { buf3.WriteString(chunk) }`
of `GenTrueID`, started on the empty buffer. -/
def writeChunks (chunks : List GoString) : GoString :=
  chunks.foldl (fun buf chunk => buf ++ chunk) []

/-- Go `func (f *File) GenTrueID()`: the receiver after the call, `none` when a
slice expression panics. -/
def GenTrueID (Hash : GoString → GoString) (f : File) : Option File :=
  let prefixLen := ChunkHashIndex
  let ChunkHashLen := IDLen - ChunkHashIndex
  let chunkHash := Hash (writeChunks f.Chunks)
  (sliceTo f.ID prefixLen).bind fun p =>
  (sliceTo chunkHash ChunkHashLen).bind fun c =>
  some { f with ID := p ++ c }

/-- The indexer's use of a `File`: it is built by `NewFile`, its chunk list is
filled in, and `GenTrueID` is called on it. -/
def finalizedFile (Hash : GoString → GoString) (path : GoString) (size updated : Int)
    (chunks : List GoString) : Option File :=
  (NewFile Hash path size updated).bind fun f => GenTrueID Hash { f with Chunks := chunks }

/-- A lowercase hexadecimal digit, `0-9` or `a-f`. -/
def isLowerHex (c : Char) : Bool :=
  ('0' ≤ c && c ≤ '9') || ('a' ≤ c && c ≤ 'f')

/-- A hexadecimal digit of either case. -/
def isHexDigit (c : Char) : Bool :=
  isLowerHex c || ('A' ≤ c && c ≤ 'F')

/-- The value of one hexadecimal digit. -/
def hexDigitVal (c : Char) : Nat :=
  if '0' ≤ c ∧ c ≤ '9' then c.toNat - '0'.toNat
  else if 'a' ≤ c ∧ c ≤ 'f' then c.toNat - 'a'.toNat + 10
  else c.toNat - 'A'.toNat + 10

/-- The number a string of hexadecimal digits denotes in base 16, most
significant digit first. -/
def hexValue (s : GoString) : Nat :=
  s.foldl (fun acc c => 16 * acc + hexDigitVal c) 0

/-- Characters 22..32 of a provisional identifier: the first ten characters of
the formatted second count. -/
def timestampField (updated : Int) : GoString :=
  (sprintfZeroHex 10 (updated.tdiv 1000)).take 10

/-- A stand-in for `util.Hash` at concrete inputs: 40 lowercase hexadecimal
digits computed from the bytes of the input, least significant digit first. -/
def sampleHash (b : GoString) : GoString :=
  (sprintfZeroHex 40
    (Int.ofNat (b.foldl (fun acc c => (acc * 257 + c.toNat + 1) % 16 ^ 40) 2654435769))).reverse

/-! ## The snapshot indexer

`Repo.Index` and the types it works on (`Repo`, `entity.Index`, the object
store) are not in `entity/file.go`; `repo_test.go` only calls them.  They are
modelled from sections 3, 4.3, 4.4 and 7 of the specification. -/

/-- Modelled from the spec: the `Index` entity of section 3 (`entity.Index`, not
among the sources): identifier, memo, parent identifier (empty for the first
snapshot), creation time and the ids of the member files. -/
structure Index where
  ID : GoString
  Memo : GoString
  Parent : GoString
  Created : Int
  Files : List GoString
deriving DecidableEq

/-- Modelled from the spec: the failures of `index` in sections 6 and 7
(`ErrEmptyIndex` and the I/O and store errors, not among the sources).
`slicePanic` stands for a Go panic in `NewFile` or `GenTrueID`. -/
inductive IndexError where
  | EmptyIndex
  | IOError
  | StoreError
  | slicePanic
deriving DecidableEq

/-- Modelled from the spec: one regular file met by the walk of section 4.4,
with its relative path, size, modification time in milliseconds and content
(`none` when the content cannot be read). -/
structure TreeEntry where
  Path : GoString
  Size : Int
  Updated : Int
  Content : Option GoString

/-- Modelled from the spec: the collaborators of section 6 that indexing
consumes: the hash, the ignore predicate, the chunker of section 4.2, the
encoding of a `File` as a metadata blob and the digest that names an `Index`. -/
structure Collaborators where
  Hash : GoString → GoString
  shouldIgnore : GoString → Bool
  chunk : GoString → List GoString
  encodeFile : File → GoString
  indexDigest : List GoString → GoString → GoString → Int → GoString

/-- Modelled from the spec: the object store of section 4.3, pairs of a digest
and the bytes stored under it. -/
abbrev Store := List (GoString × GoString)

/-- Modelled from the spec: the persisted state of a repository (type `Repo`,
not among the sources): the object store, the `File` entities written so far
and the history of indexes, the latest first. -/
structure Repo where
  objects : Store
  files : List File
  history : List Index

/-- Modelled from the spec: `put` of section 4.3 (object store, not among the
sources).  The digest is the hash of the bytes; an object already stored under
it is left alone when its content is the same and is a fatal collision when it
differs. -/
def Store.put (Hash : GoString → GoString) (store : Store) (bytes : GoString) :
    Except IndexError (GoString × Store) :=
  let digest := Hash bytes
  match store.lookup digest with
  | some old => if old = bytes then .ok (digest, store) else .error .StoreError
  | none => .ok (digest, (digest, bytes) :: store)

/-- Modelled from the spec: step 4 of section 4.4, every chunk of a file is
`put` into the object store, in order; the result is the list of their
digests. -/
def putChunks (Hash : GoString → GoString) :
    List GoString → Store → Except IndexError (List GoString × Store)
  | [], store => .ok ([], store)
  | c :: cs, store =>
    match Store.put Hash store c with
    | .error e => .error e
    | .ok (d, store1) =>
      match putChunks Hash cs store1 with
      | .error e => .error e
      | .ok (ds, store2) => .ok (d :: ds, store2)

/-- Modelled from the spec: step 1 of section 4.4, the `File`s referenced by the
latest `Index` of the history, none when there is no `Index` yet. -/
def Repo.latestFiles (r : Repo) : List File :=
  match r.history with
  | [] => []
  | latest :: _ => r.files.filter fun f => f.ID ∈ latest.Files

/-- Modelled from the spec: steps 2 to 4 of section 4.4 for one walked file.
Its provisional id is computed by `NewFile`; a `File` of the latest index with
the same path fingerprint and timestamp (the first 32 characters, section 4.1)
is reused unchanged; otherwise the content is read and chunked, the chunks are
stored, `GenTrueID` completes the id and the metadata blob is stored.  The
result is the `File`, the object store and the `File` entities written. -/
def indexFile (env : Collaborators) (latest : List File) (objects : Store)
    (written : List File) (e : TreeEntry) : Except IndexError (File × Store × List File) :=
  match NewFile env.Hash e.Path e.Size e.Updated with
  | none => .error .slicePanic
  | some f =>
    match latest.find? (fun l => l.ID.take ChunkHashIndex == f.ID.take ChunkHashIndex) with
    | some l => .ok (l, objects, written)
    | none =>
      match e.Content with
      | none => .error .IOError
      | some content =>
        match putChunks env.Hash (env.chunk content) objects with
        | .error err => .error err
        | .ok (digests, objects1) =>
          match GenTrueID env.Hash { f with Chunks := digests } with
          | none => .error .slicePanic
          | some g =>
            match Store.put env.Hash objects1 (env.encodeFile g) with
            | .error err => .error err
            | .ok (_, objects2) => .ok (g, objects2, g :: written)

/-- Modelled from the spec: steps 2 to 4 of section 4.4 over the walked files, in
walk order; the first failure aborts the run (section 7). -/
def indexFiles (env : Collaborators) (latest : List File) :
    List TreeEntry → Store → List File → Except IndexError (List File × Store × List File)
  | [], objects, written => .ok ([], objects, written)
  | e :: es, objects, written =>
    match indexFile env latest objects written e with
    | .error err => .error err
    | .ok (f, objects1, written1) =>
      match indexFiles env latest es objects1 written1 with
      | .error err => .error err
      | .ok (fs, objects2, written2) => .ok (f :: fs, objects2, written2)

/-- Modelled from the spec: `Repo.Index` (not among the sources; `repo_test.go`
calls it), the algorithm of section 4.4.  The files of the latest index are
loaded, the data tree is walked without the ignored paths, every file is
reused or chunked and stored; the run fails with `EmptyIndex` when no file
results and the history has no index; otherwise the new `Index` is built with
the latest id as parent, appended to the history and returned. -/
def Repo.Index (env : Collaborators) (r : Repo) (tree : List TreeEntry) (memo : GoString)
    (now : Int) : Except IndexError (Index × Repo) :=
  let latest := r.latestFiles
  let walked := tree.filter fun e => !env.shouldIgnore e.Path
  match indexFiles env latest walked r.objects r.files with
  | .error err => .error err
  | .ok (files, objects, written) =>
    if files.isEmpty && r.history.isEmpty then .error .EmptyIndex
    else
      let parent := match r.history with
        | [] => []
        | latestIndex :: _ => latestIndex.ID
      let ids := files.map fun f => f.ID
      let index : Dejavu.Index :=
        { ID := env.indexDigest ids memo parent now, Memo := memo, Parent := parent,
          Created := now, Files := ids }
      .ok (index, { objects := objects, files := written, history := index :: r.history })

/-- Stand-ins for the collaborators at concrete inputs: `sampleHash`, the
ignore list `bar` of `repo_test.go`, a chunker that cuts after every fourth
byte, the path and chunk ids as metadata blob, and the hash of the member ids,
memo and parent as index digest. -/
def sampleEnv : Collaborators where
  Hash := sampleHash
  shouldIgnore := fun path => path == "bar".toList
  chunk := fun content => content.toChunks 4
  encodeFile := fun f => f.Path ++ f.ID ++ f.Chunks.flatten
  indexDigest := fun ids memo parent _ => sampleHash (ids.flatten ++ memo ++ parent)

/-- A repository that has never been indexed. -/
def emptyRepo : Repo :=
  { objects := [], files := [], history := [] }

/-- Relation between a walked file and the `File` that indexing returns for it:
the `File`'s id agrees on the first 32 characters with the provisional id that
`NewFile` computes for the walked file. -/
def indexedAs (env : Collaborators) (e : TreeEntry) (f : File) : Prop :=
  ∃ p, NewFile env.Hash e.Path e.Size e.Updated = some p ∧ f.ID.take 32 = p.ID.take 32

/-! ## Checkout

`Repo.Checkout` is not among the sources either; it is modelled from sections
4.3, 4.5 and 7 of the specification. -/

/-- Modelled from the spec: the failures of `checkout` in sections 6 and 7 (not
among the sources). -/
inductive CheckoutError where
  | NotFound
  | Corrupt
  | IOError
  | StoreError
deriving DecidableEq

/-- Modelled from the spec: a regular file of a target directory, with its
relative path, modification time and content. -/
structure DirFile where
  Path : GoString
  Updated : Int
  Content : GoString
deriving DecidableEq

/-- Modelled from the spec: `get` of section 4.3 (object store, not among the
sources): `NotFound` when nothing is stored under the digest, `Corrupt` when the
hash of the stored bytes is not the digest. -/
def Store.get (Hash : GoString → GoString) (store : Store) (digest : GoString) :
    Except CheckoutError GoString :=
  match store.lookup digest with
  | none => .error .NotFound
  | some bytes => if Hash bytes = digest then .ok bytes else .error .Corrupt

/-- Modelled from the spec: step 2 of section 4.5, the chunks of a `File` are
fetched and concatenated in list order. -/
def fetchChunks (Hash : GoString → GoString) (store : Store) :
    List GoString → Except CheckoutError GoString
  | [] => .ok []
  | d :: ds =>
    match Store.get Hash store d with
    | .error e => .error e
    | .ok bytes =>
      match fetchChunks Hash store ds with
      | .error e => .error e
      | .ok rest => .ok (bytes ++ rest)

/-- Modelled from the spec: the `File` entities an `Index` references by id are
looked up among the stored ones; a missing one is `NotFound`. -/
def resolveFiles (files : List File) : List GoString → Except CheckoutError (List File)
  | [] => .ok []
  | id :: ids =>
    match files.find? (fun f => f.ID == id) with
    | none => .error .NotFound
    | some f =>
      match resolveFiles files ids with
      | .error e => .error e
      | .ok fs => .ok (f :: fs)

/-- Modelled from the spec: writing a file of the target directory replaces
what was at its path. -/
def writeFile (dir : List DirFile) (d : DirFile) : List DirFile :=
  d :: dir.filter fun x => x.Path != d.Path

/-- Modelled from the spec: step 2 of section 4.5 over the `File`s of the
`Index`: the content of each is fetched and written at its path with its
modification time; the first failure aborts the run. -/
def restoreFiles (Hash : GoString → GoString) (store : Store) :
    List File → List DirFile → Except CheckoutError (List DirFile)
  | [], dir => .ok dir
  | f :: fs, dir =>
    match fetchChunks Hash store f.Chunks with
    | .error e => .error e
    | .ok content =>
      restoreFiles Hash store fs
        (writeFile dir { Path := f.Path, Updated := f.Updated, Content := content })

/-- Modelled from the spec: `Repo.Checkout` (not among the sources;
`repo_test.go` calls it), the algorithm of section 4.5.  The `Index` is resolved
by id, its `File`s are restored into the target directory, and the files of the
target that are neither ignored nor in the `Index` are deleted.  The result is
the directory with the numbers of files written and removed. -/
def Repo.Checkout (env : Collaborators) (r : Repo) (indexID : GoString)
    (target : List DirFile) : Except CheckoutError (List DirFile × Nat × Nat) :=
  match r.history.find? (fun i => i.ID == indexID) with
  | none => .error .NotFound
  | some index =>
    match resolveFiles r.files index.Files with
    | .error e => .error e
    | .ok files =>
      match restoreFiles env.Hash r.objects files target with
      | .error e => .error e
      | .ok dir =>
        let kept := dir.filter fun d =>
          env.shouldIgnore d.Path || files.any fun f => f.Path == d.Path
        .ok (kept, files.length, dir.length - kept.length)

/-- Stand-ins for the collaborators at concrete inputs, as `sampleEnv` but with
a chunker that cuts once, after the fourth byte, and an index digest computed
from the member ids alone. -/
def sampleContentEnv : Collaborators where
  Hash := sampleHash
  shouldIgnore := fun path => path == "bar".toList
  chunk := fun content => [content.take 4, content.drop 4]
  encodeFile := fun f => f.Path ++ f.ID ++ f.Chunks.flatten
  indexDigest := fun ids _ _ _ => sampleHash ids.flatten

/-- A data tree with the file `foo` of `repo_test.go` and the ignored `bar`. -/
def sampleTree : List TreeEntry :=
  [{ Path := "foo".toList, Size := 5, Updated := 1700000000123,
     Content := some "hello".toList },
   { Path := "bar".toList, Size := 3, Updated := 1700000000123,
     Content := some "xyz".toList }]

/-- The `Index` that indexing `sampleTree` on `emptyRepo` returns. -/
def sampleIndex1 : Index :=
  { ID := "e7952fd925f41f00df573aad5bbadc6bcac6402e".toList, Memo := "Index 1".toList,
    Parent := [], Created := 0,
    Files := ["004e73b6bf310a00000000006553f100aee74876".toList] }

/-- The repository after indexing `sampleTree` on `emptyRepo`. -/
def sampleRepo1 : Repo :=
  { objects :=
      [("6f0a2fff36d573e0508c234afd2dbe37d8148593".toList,
        ("foo004e73b6bf310a00000000006553f100aee74876263d715a66f04b0a0000000000000000000000"
          ++ "0092331b5de9000000000000000000000000000000").toList),
       ("92331b5de9000000000000000000000000000000".toList, "o".toList),
       ("263d715a66f04b0a000000000000000000000000".toList, "hell".toList)],
    files :=
      [{ ID := "004e73b6bf310a00000000006553f100aee74876".toList, Path := "foo".toList,
         Size := 5, Updated := 1700000000123,
         Chunks := ["263d715a66f04b0a000000000000000000000000".toList,
                    "92331b5de9000000000000000000000000000000".toList] }],
    history := [sampleIndex1] }

/-- Relation between a walked file and the `File` stored for it: same path, same
modification time, and the chunks of the `File` are fetched from the store as
the content of the walked file. -/
def storedAs (Hash : GoString → GoString) (objects : Store) (e : TreeEntry) (f : File) :
    Prop :=
  f.Path = e.Path ∧ f.Updated = e.Updated ∧
    ∃ c, e.Content = some c ∧ fetchChunks Hash objects f.Chunks = .ok c

/-- The tree `sampleTree` after `foo` was rewritten within the second of its
former modification time. -/
def sampleTreeChanged : List TreeEntry :=
  [{ Path := "foo".toList, Size := 11, Updated := 1700000000900,
     Content := some "HELLO world".toList }]

/-- The `Index` that indexing `sampleTreeChanged` on `sampleRepo1` returns. -/
def sampleIndex2 : Index :=
  { ID := "e7952fd925f41f00df573aad5bbadc6bcac6402e".toList, Memo := "Index 2".toList,
    Parent := "e7952fd925f41f00df573aad5bbadc6bcac6402e".toList, Created := 1,
    Files := ["004e73b6bf310a00000000006553f100aee74876".toList] }

/-- The repository after indexing `sampleTreeChanged` on `sampleRepo1`. -/
def sampleRepo2 : Repo :=
  { sampleRepo1 with history := [sampleIndex2, sampleIndex1] }

/-- The `Index` that indexing `sampleTree` on `emptyRepo` with `sampleEnv` and the
memo `Index 1` returns. -/
def sampleEnvIndex1 : Index :=
  { ID := "ecd8774fdec63b1d1e55f120ec7c14dcfb54e2dc".toList, Memo := "Index 1".toList,
    Parent := [], Created := 0,
    Files := ["004e73b6bf310a00000000006553f100aee74876".toList] }

/-- The repository after that first `Index` with `sampleEnv`. -/
def sampleEnvRepo1 : Repo :=
  { sampleRepo1 with history := [sampleEnvIndex1] }

/-- The `Index` that indexing the untouched `sampleTree` again, with `sampleEnv` and
the memo `Index 2`, returns. -/
def sampleEnvIndex2 : Index :=
  { ID := "50e8ee79f938677002e29d79f30da22707c8a4a3".toList, Memo := "Index 2".toList,
    Parent := "ecd8774fdec63b1d1e55f120ec7c14dcfb54e2dc".toList, Created := 1,
    Files := ["004e73b6bf310a00000000006553f100aee74876".toList] }

/-- The repository after that second `Index` with `sampleEnv`. -/
def sampleEnvRepo2 : Repo :=
  { sampleRepo1 with history := [sampleEnvIndex2, sampleEnvIndex1] }

/-! ## Slices, the chunk buffer -/

theorem sliceTo_of_le {s : GoString} {n : Nat} (h : n ≤ s.length) :
    sliceTo s n = some (s.take n) := by
  simp [sliceTo, h]

theorem sliceTo_of_lt {s : GoString} {n : Nat} (h : s.length < n) :
    sliceTo s n = none := by
  simp [sliceTo, Nat.not_le.mpr h]

theorem foldl_append_eq (chunks : List GoString) (buf : GoString) :
    chunks.foldl (fun buf chunk => buf ++ chunk) buf = buf ++ chunks.flatten := by
  induction chunks generalizing buf with
  | nil => simp
  | cons c cs ih => simp [ih, List.append_assoc]

/-- The buffer hashed by `GenTrueID` is the concatenation of the chunk
identifiers in list order, with nothing between them. -/
theorem writeChunks_eq_join (chunks : List GoString) : writeChunks chunks = chunks.flatten := by
  simp [writeChunks, foldl_append_eq]

/-! ## Hexadecimal digits -/

theorem isLowerHex_digitChar : ∀ k, k < 16 → isLowerHex (Nat.digitChar k) = true := by
  decide

theorem hexDigitVal_digitChar : ∀ k, k < 16 → hexDigitVal (Nat.digitChar k) = k := by
  decide

theorem toDigitsCore_append (b : Nat) (fuel : Nat) :
    ∀ (n : Nat) (ds : List Char),
      Nat.toDigitsCore b fuel n ds = Nat.toDigitsCore b fuel n [] ++ ds := by
  induction fuel with
  | zero => intro n ds; simp [Nat.toDigitsCore]
  | succ fuel ih =>
    intro n ds
    simp only [Nat.toDigitsCore]
    split
    · simp
    · rw [ih (n / b) (Nat.digitChar (n % b) :: ds), ih (n / b) [Nat.digitChar (n % b)]]
      simp

theorem toDigitsCore_ne_nil (fuel n : Nat) : Nat.toDigitsCore 16 (fuel + 1) n [] ≠ [] := by
  simp only [Nat.toDigitsCore]
  split
  · simp
  · rw [toDigitsCore_append]; simp

theorem toDigits_length_pos (n : Nat) : 1 ≤ (Nat.toDigits 16 n).length := by
  have h := toDigitsCore_ne_nil n n
  unfold Nat.toDigits
  exact Nat.one_le_iff_ne_zero.mpr (fun h0 => h (List.length_eq_zero.mp h0))

theorem toDigits_length_le (n e : Nat) (h : n < 16 ^ e) (he : 0 < e) :
    (Nat.toDigits 16 n).length ≤ e :=
  Nat.toDigitsCore_length 16 (by decide) (n + 1) n e h he

theorem toDigitsCore_all_lowerHex (fuel : Nat) :
    ∀ n, ∀ c ∈ Nat.toDigitsCore 16 fuel n [], isLowerHex c = true := by
  induction fuel with
  | zero => intro n c hc; simp [Nat.toDigitsCore] at hc
  | succ fuel ih =>
    intro n c hc
    simp only [Nat.toDigitsCore] at hc
    split at hc
    · simp only [List.mem_singleton] at hc
      subst hc
      exact isLowerHex_digitChar _ (Nat.mod_lt _ (by decide))
    · rw [toDigitsCore_append] at hc
      rcases List.mem_append.mp hc with h | h
      · exact ih _ c h
      · simp only [List.mem_singleton] at h
        subst h
        exact isLowerHex_digitChar _ (Nat.mod_lt _ (by decide))

theorem toDigits_all_lowerHex (n : Nat) : ∀ c ∈ Nat.toDigits 16 n, isLowerHex c = true :=
  toDigitsCore_all_lowerHex (n + 1) n

theorem hexFold_acc (s : GoString) (acc : Nat) :
    s.foldl (fun acc c => 16 * acc + hexDigitVal c) acc = acc * 16 ^ s.length + hexValue s := by
  induction s generalizing acc with
  | nil => simp [hexValue]
  | cons c cs ih =>
    simp only [List.foldl_cons, hexValue, List.length_cons]
    rw [ih (16 * acc + hexDigitVal c), ih (16 * 0 + hexDigitVal c)]
    ring

theorem hexValue_append (a b : GoString) :
    hexValue (a ++ b) = hexValue a * 16 ^ b.length + hexValue b := by
  unfold hexValue
  rw [List.foldl_append, hexFold_acc]
  rfl

theorem hexValue_replicate_zero (k : Nat) : hexValue (List.replicate k '0') = 0 := by
  induction k with
  | zero => rfl
  | succ k ih =>
    have h1 : hexValue ['0'] = 0 := by decide
    rw [List.replicate_succ, ← List.singleton_append, hexValue_append, ih, h1]
    simp

theorem hexValue_toDigitsCore (fuel : Nat) :
    ∀ n, n < fuel → hexValue (Nat.toDigitsCore 16 fuel n []) = n := by
  induction fuel with
  | zero => intro n h; omega
  | succ fuel ih =>
    intro n h
    simp only [Nat.toDigitsCore]
    split
    · rename_i h0
      have hlt : n < 16 := by omega
      simp only [hexValue, List.foldl_cons, List.foldl_nil]
      rw [hexDigitVal_digitChar _ (Nat.mod_lt _ (by decide)), Nat.mod_eq_of_lt hlt]
      omega
    · rename_i h0
      rw [toDigitsCore_append, hexValue_append, ih (n / 16) (by omega)]
      simp only [hexValue, List.foldl_cons, List.foldl_nil, List.length_singleton]
      rw [hexDigitVal_digitChar _ (Nat.mod_lt _ (by decide))]
      omega

/-- Reading the hexadecimal numeral of `n` gives `n` back. -/
theorem hexValue_toDigits (n : Nat) : hexValue (Nat.toDigits 16 n) = n :=
  hexValue_toDigitsCore (n + 1) n (Nat.lt_succ_self n)

/-! ## The formatted timestamp -/

theorem sprintfZeroHex_of_nonneg (w : Nat) (v : Int) (h : 0 ≤ v) :
    sprintfZeroHex w v =
      List.replicate (w - (Nat.toDigits 16 v.natAbs).length) '0' ++ Nat.toDigits 16 v.natAbs := by
  simp [sprintfZeroHex, Int.not_lt.mpr h]

theorem sprintfZeroHex_of_neg (w : Nat) (v : Int) (h : v < 0) :
    sprintfZeroHex w v =
      '-' :: (List.replicate (w - 1 - (Nat.toDigits 16 v.natAbs).length) '0'
        ++ Nat.toDigits 16 v.natAbs) := by
  simp [sprintfZeroHex, h]

/-- The formatted number is never shorter than the requested width. -/
theorem sprintfZeroHex_length_ge (w : Nat) (v : Int) : w ≤ (sprintfZeroHex w v).length := by
  by_cases h : v < 0
  · rw [sprintfZeroHex_of_neg w v h]
    simp only [List.length_cons, List.length_append, List.length_replicate]
    omega
  · rw [sprintfZeroHex_of_nonneg w v (Int.not_lt.mp h)]
    simp only [List.length_append, List.length_replicate]
    omega

/-- A value in `[0, 16^w)` is formatted on exactly `w` characters. -/
theorem sprintfZeroHex_length_eq (w : Nat) (v : Int) (h0 : 0 ≤ v) (hlt : v < 16 ^ w)
    (hw : 0 < w) : (sprintfZeroHex w v).length = w := by
  have hn : v.natAbs < 16 ^ w := by
    have : (v.natAbs : Int) < ((16 ^ w : Nat) : Int) := by
      rw [Int.natAbs_of_nonneg h0]; exact_mod_cast hlt
    exact_mod_cast this
  have hle := toDigits_length_le v.natAbs w hn hw
  rw [sprintfZeroHex_of_nonneg w v h0]
  simp only [List.length_append, List.length_replicate]
  omega

theorem sprintfZeroHex_all_lowerHex (w : Nat) (v : Int) (h0 : 0 ≤ v) :
    ∀ c ∈ sprintfZeroHex w v, isLowerHex c = true := by
  intro c hc
  rw [sprintfZeroHex_of_nonneg w v h0] at hc
  rcases List.mem_append.mp hc with h | h
  · rw [List.eq_of_mem_replicate h]; decide
  · exact toDigits_all_lowerHex _ c h

theorem hexValue_sprintfZeroHex (w : Nat) (v : Int) (h0 : 0 ≤ v) :
    hexValue (sprintfZeroHex w v) = v.natAbs := by
  rw [sprintfZeroHex_of_nonneg w v h0, hexValue_append, hexValue_replicate_zero,
    hexValue_toDigits]
  simp

theorem sprintfZeroHex_eight_zero :
    sprintfZeroHex (IDLen - ChunkHashIndex) 0 = List.replicate 8 '0' := by
  decide

/-! ## What `genCheckID`, `NewFile` and `GenTrueID` return -/

theorem timestampField_length (updated : Int) : (timestampField updated).length = 10 := by
  have h := sprintfZeroHex_length_ge 10 (updated.tdiv 1000)
  simp only [timestampField, List.length_take]
  omega

theorem genCheckID_eq (Hash : GoString → GoString) (f : File)
    (h : 22 ≤ (Hash f.Path).length) :
    genCheckID Hash f =
      some ((Hash f.Path).take 22 ++ timestampField f.Updated ++ List.replicate 8 '0') := by
  have hu := sprintfZeroHex_length_ge 10 (f.Updated.tdiv 1000)
  have h8 := sprintfZeroHex_eight_zero
  simp only [IDLen, ChunkHashIndex] at h8
  simp only [genCheckID, TimestampIndex, ChunkHashIndex, IDLen, timestampField]
  rw [sliceTo_of_le h, sliceTo_of_le hu]
  simp only [Option.some_bind, h8]

theorem genCheckID_none (Hash : GoString → GoString) (f : File)
    (h : (Hash f.Path).length < 22) : genCheckID Hash f = none := by
  simp only [genCheckID, TimestampIndex]
  rw [sliceTo_of_lt h]
  rfl

theorem NewFile_eq (Hash : GoString → GoString) (path : GoString) (size updated : Int)
    (h : 22 ≤ (Hash path).length) :
    NewFile Hash path size updated =
      some { ID := (Hash path).take 22 ++ timestampField updated ++ List.replicate 8 '0',
             Path := path, Size := size, Updated := updated, Chunks := [] } := by
  simp only [NewFile]
  rw [genCheckID_eq Hash _ h]
  rfl

theorem GenTrueID_eq (Hash : GoString → GoString) (f : File) (hid : 32 ≤ f.ID.length)
    (h : 8 ≤ (Hash f.Chunks.flatten).length) :
    GenTrueID Hash f =
      some { f with ID := f.ID.take 32 ++ (Hash f.Chunks.flatten).take 8 } := by
  simp only [GenTrueID, ChunkHashIndex, IDLen, writeChunks_eq_join]
  rw [sliceTo_of_le hid, sliceTo_of_le h]
  rfl

theorem provisional_length (a : GoString) (updated : Int) (h : 22 ≤ a.length) :
    (a.take 22 ++ timestampField updated ++ List.replicate 8 '0').length = 40 := by
  simp only [List.length_append, List.length_take, timestampField_length,
    List.length_replicate]
  omega

/-! ## The stand-in hash -/

theorem sampleFold_lt (b : GoString) (acc : Nat) (h : acc < 16 ^ 40) :
    b.foldl (fun acc c => (acc * 257 + c.toNat + 1) % 16 ^ 40) acc < 16 ^ 40 := by
  induction b generalizing acc with
  | nil => simpa using h
  | cons c cs ih =>
    simp only [List.foldl_cons]
    exact ih _ (Nat.mod_lt _ (by positivity))

theorem sampleHash_length (b : GoString) : (sampleHash b).length = 40 := by
  have hlt := sampleFold_lt b 2654435769 (by decide)
  simp only [sampleHash, List.length_reverse]
  apply sprintfZeroHex_length_eq 40 _ (Int.ofNat_nonneg _) _ (by decide)
  exact_mod_cast hlt

theorem sampleHash_lowerHex (b : GoString) : ∀ c ∈ sampleHash b, isLowerHex c = true := by
  intro c hc
  simp only [sampleHash, List.mem_reverse] at hc
  exact sprintfZeroHex_all_lowerHex 40 _ (Int.ofNat_nonneg _) c hc

theorem isHexDigit_of_isLowerHex {c : Char} (h : isLowerHex c = true) :
    isHexDigit c = true := by
  simp [isHexDigit, h]

theorem sampleHash_ge22 (b : GoString) : 22 ≤ (sampleHash b).length := by
  rw [sampleHash_length]; decide

theorem sampleHash_ge8 (b : GoString) : 8 ≤ (sampleHash b).length := by
  rw [sampleHash_length]; decide

/-! ## The three fields of an identifier -/

theorem fields_take_22 (p t z : GoString) (hp : p.length = 22) :
    (p ++ t ++ z).take 22 = p := by
  rw [List.append_assoc, List.take_append_of_le_length (by omega), List.take_of_length_le (by omega)]

theorem fields_mid (p t z : GoString) (hp : p.length = 22) (ht : t.length = 10) :
    ((p ++ t ++ z).drop 22).take 10 = t := by
  rw [List.append_assoc, List.drop_append_of_le_length (by omega),
    List.drop_of_length_le (by omega), List.nil_append,
    List.take_append_of_le_length (by omega), List.take_of_length_le (by omega)]

theorem fields_drop_32 (p t z : GoString) (hp : p.length = 22) (ht : t.length = 10) :
    (p ++ t ++ z).drop 32 = z := by
  have h : (p ++ t).length = 32 := by simp [hp, ht]
  rw [List.drop_append_of_le_length (by omega), List.drop_of_length_le (by omega),
    List.nil_append]

theorem take_22_length (a : GoString) (h : 22 ≤ a.length) : (a.take 22).length = 22 := by
  rw [List.length_take]; omega

theorem timestampField_of_range (updated : Int) (h0 : 0 ≤ updated.tdiv 1000)
    (hlt : updated.tdiv 1000 < 16 ^ 10) :
    timestampField updated = sprintfZeroHex 10 (updated.tdiv 1000) := by
  have h := sprintfZeroHex_length_eq 10 _ h0 hlt (by decide)
  simp only [timestampField]
  exact List.take_of_length_le (by omega)

theorem finalizedFile_eq (Hash : GoString → GoString) (path : GoString) (size updated : Int)
    (chunks : List GoString) (h22 : 22 ≤ (Hash path).length)
    (h8 : 8 ≤ (Hash chunks.flatten).length) :
    finalizedFile Hash path size updated chunks =
      some { ID := (Hash path).take 22 ++ timestampField updated
                    ++ (Hash chunks.flatten).take 8,
             Path := path, Size := size, Updated := updated, Chunks := chunks } := by
  have hlen := provisional_length (Hash path) updated h22
  have hp := take_22_length _ h22
  have h32 : ((Hash path).take 22 ++ timestampField updated).length = 32 := by
    simp [hp, timestampField_length]
  have hg := GenTrueID_eq Hash
    { ID := (Hash path).take 22 ++ timestampField updated ++ List.replicate 8 '0',
      Path := path, Size := size, Updated := updated, Chunks := chunks }
    (by
      show 32 ≤ ((Hash path).take 22 ++ timestampField updated
        ++ List.replicate 8 '0').length
      omega) h8
  simp only [finalizedFile, NewFile_eq Hash path size updated h22, Option.some_bind]
  rw [hg]
  simp only [Option.some.injEq, File.mk.injEq, and_true]
  rw [List.take_append_of_le_length (by omega), List.take_of_length_le (by omega)]

theorem GenTrueID_ID_congr (Hash : GoString → GoString) (f : File) (c1 c2 : List GoString)
    (h : c1.flatten = c2.flatten) :
    (GenTrueID Hash { f with Chunks := c1 }).map (fun g => g.ID) =
      (GenTrueID Hash { f with Chunks := c2 }).map (fun g => g.ID) := by
  simp only [GenTrueID, writeChunks_eq_join, h]
  cases sliceTo f.ID ChunkHashIndex with
  | none => rfl
  | some p =>
    cases sliceTo (Hash c2.flatten) (IDLen - ChunkHashIndex) with
    | none => rfl
    | some c => rfl

/-! ## Claims about the identifier layout -/

/-- C1. When `util.Hash` returns at least 22 characters: for every `File` whose
`ID` has at least 32 characters `GenTrueID` returns, the new `ID` is the old
one's first 32 characters followed by 8 new characters (so characters 0..32 are
unchanged and the identifier ends at 40); hence for every path, size, updated
and chunk list the finalized identifier agrees with the one of `NewFile` on the
first 32 characters. -/
theorem GenTrueID_keeps_first_32 (Hash : GoString → GoString)
    (hHash : ∀ b, 22 ≤ (Hash b).length) :
    (∀ f : File, 32 ≤ f.ID.length →
      ∃ g s, GenTrueID Hash f = some g ∧ g.ID.take 32 = f.ID.take 32 ∧
        s.length = 8 ∧ g.ID = f.ID.take 32 ++ s) ∧
    (∀ (path : GoString) (size updated : Int) (chunks : List GoString),
      ∃ n g, NewFile Hash path size updated = some n ∧
        finalizedFile Hash path size updated chunks = some g ∧
        g.ID.take 32 = n.ID.take 32) := by
  have h8 : ∀ b, 8 ≤ (Hash b).length := fun b => le_trans (by decide) (hHash b)
  have key : ∀ f : File, 32 ≤ f.ID.length →
      ∃ g s, GenTrueID Hash f = some g ∧ g.ID.take 32 = f.ID.take 32 ∧
        s.length = 8 ∧ g.ID = f.ID.take 32 ++ s := by
    intro f hid
    refine ⟨_, (Hash f.Chunks.flatten).take 8, GenTrueID_eq Hash f hid (h8 _), ?_, ?_, rfl⟩
    · have hl : (f.ID.take 32).length = 32 := by
        rw [List.length_take]; omega
      show (f.ID.take 32 ++ _).take 32 = _
      rw [List.take_append_of_le_length (by omega), List.take_take]
      simp
    · rw [List.length_take]
      have := h8 f.Chunks.flatten
      omega
  refine ⟨key, ?_⟩
  intro path size updated chunks
  have hn := NewFile_eq Hash path size updated (hHash path)
  have hlen := provisional_length (Hash path) updated (hHash path)
  obtain ⟨g, s, hg, htake, -, -⟩ := key
    { ID := (Hash path).take 22 ++ timestampField updated ++ List.replicate 8 '0',
      Path := path, Size := size, Updated := updated, Chunks := chunks } (by
      show 32 ≤ ((Hash path).take 22 ++ timestampField updated ++ List.replicate 8 '0').length
      omega)
  refine ⟨_, g, hn, ?_, htake⟩
  simp only [finalizedFile, hn, Option.some_bind]
  exact hg

/-- C1 at `sampleHash`, the file `foo` with a 40-character identifier and two
chunks. -/
theorem GenTrueID_keeps_first_32_witness :
    (∀ b, 22 ≤ (sampleHash b).length) ∧
    ((∀ f : File, 32 ≤ f.ID.length →
      ∃ g s, GenTrueID sampleHash f = some g ∧ g.ID.take 32 = f.ID.take 32 ∧
        s.length = 8 ∧ g.ID = f.ID.take 32 ++ s) ∧
    (∀ (path : GoString) (size updated : Int) (chunks : List GoString),
      ∃ n g, NewFile sampleHash path size updated = some n ∧
        finalizedFile sampleHash path size updated chunks = some g ∧
        g.ID.take 32 = n.ID.take 32)) ∧
    (finalizedFile sampleHash "foo".toList 5 1700000000123
        ["ab".toList, "c".toList]).map (fun g => g.ID) =
      some "004e73b6bf310a00000000006553f1002ecc23b6".toList :=
  ⟨sampleHash_ge22, GenTrueID_keeps_first_32 sampleHash sampleHash_ge22, by decide⟩

/-- C2. For every `File` with an `ID` of at least 32 characters and every chunk
list, the empty one included, `GenTrueID` returns and characters 32..40 of the
new `ID` (all that follows character 32) are the first 8 characters of
`util.Hash` of the concatenation of `f.Chunks` in list order; with no chunks
that is the first 8 characters of the hash of the empty input. -/
theorem GenTrueID_suffix_is_chunk_hash (Hash : GoString → GoString) (f : File)
    (hid : 32 ≤ f.ID.length) (hHash : ∀ b, 8 ≤ (Hash b).length) :
    ∃ g, GenTrueID Hash f = some g ∧
      g.ID.drop 32 = (Hash f.Chunks.flatten).take 8 ∧
      (g.ID.drop 32).length = 8 ∧
      (f.Chunks = [] → g.ID.drop 32 = (Hash []).take 8) := by
  have hl : (f.ID.take 32).length = 32 := by
    rw [List.length_take]; omega
  have hd : (f.ID.take 32 ++ (Hash f.Chunks.flatten).take 8).drop 32 =
      (Hash f.Chunks.flatten).take 8 := by
    rw [List.drop_append_of_le_length (by omega), List.drop_of_length_le (by omega)]
    simp
  refine ⟨_, GenTrueID_eq Hash f hid (hHash _), hd, ?_, ?_⟩
  · show ((f.ID.take 32 ++ (Hash f.Chunks.flatten).take 8).drop 32).length = 8
    rw [hd, List.length_take]
    have := hHash f.Chunks.flatten
    omega
  · intro hc
    show (f.ID.take 32 ++ (Hash f.Chunks.flatten).take 8).drop 32 = _
    rw [hd, hc]
    rfl

/-- C2 at `sampleHash` and a file without chunks whose identifier is the
provisional one of 40 characters. -/
theorem GenTrueID_suffix_is_chunk_hash_witness :
    32 ≤ ("004e73b6bf310a00000000006553f10000000000".toList).length ∧
    (∀ b, 8 ≤ (sampleHash b).length) ∧
    ∃ g, GenTrueID sampleHash
        { ID := "004e73b6bf310a00000000006553f10000000000".toList, Path := "foo".toList,
          Size := 0, Updated := 1700000000123, Chunks := [] } = some g ∧
      g.ID.drop 32 = (sampleHash ([] : List GoString).flatten).take 8 ∧
      (g.ID.drop 32).length = 8 ∧
      (([] : List GoString) = [] → g.ID.drop 32 = (sampleHash []).take 8) :=
  ⟨by decide, sampleHash_ge8,
    GenTrueID_suffix_is_chunk_hash sampleHash
      { ID := "004e73b6bf310a00000000006553f10000000000".toList, Path := "foo".toList,
        Size := 0, Updated := 1700000000123, Chunks := [] } (by decide) sampleHash_ge8⟩

/-- C3. When `util.Hash` returns at least 22 characters for the path,
`NewFile(path, size, updated)` returns and its `ID` starts with the first 22
characters of `util.Hash(path)` and carries `"00000000"` from offset 32 to its
end at 40. -/
theorem NewFile_path_and_placeholder (Hash : GoString → GoString) (path : GoString)
    (size updated : Int) (h : 22 ≤ (Hash path).length) :
    ∃ f, NewFile Hash path size updated = some f ∧
      f.ID.take 22 = (Hash path).take 22 ∧
      f.ID.drop 32 = "00000000".toList ∧
      f.ID.length = 40 := by
  refine ⟨_, NewFile_eq Hash path size updated h, ?_, ?_, ?_⟩
  · exact fields_take_22 _ _ _ (take_22_length _ h)
  · exact fields_drop_32 _ _ _ (take_22_length _ h) (timestampField_length updated)
  · exact provisional_length _ _ h

/-- C3 at `sampleHash`, path `foo`. -/
theorem NewFile_path_and_placeholder_witness :
    22 ≤ (sampleHash "foo".toList).length ∧
    ∃ f, NewFile sampleHash "foo".toList 5 1700000000123 = some f ∧
      f.ID.take 22 = (sampleHash "foo".toList).take 22 ∧
      f.ID.drop 32 = "00000000".toList ∧
      f.ID.length = 40 :=
  ⟨sampleHash_ge22 _,
    NewFile_path_and_placeholder sampleHash "foo".toList 5 1700000000123 (sampleHash_ge22 _)⟩

/-- C4. For `updated` with `0 ≤ updated/1000 < 16^10` (and a hash of at least 22
characters) `NewFile` returns and characters 22..32 of its `ID` are the
lowercase hexadecimal numeral of `updated/1000` padded on the left with `'0'`
to exactly 10 digits; read in base 16 the field is `SecUpdated()`; and a second
timestamp in that range with another second value gives another `ID` for the
same path. -/
theorem NewFile_timestamp_field (Hash : GoString → GoString) (path : GoString)
    (size updated : Int) (h : 22 ≤ (Hash path).length)
    (h0 : 0 ≤ updated.tdiv 1000) (hlt : updated.tdiv 1000 < 16 ^ 10) :
    ∃ f, NewFile Hash path size updated = some f ∧
      (f.ID.drop 22).take 10 =
        List.replicate (10 - (Nat.toDigits 16 (updated.tdiv 1000).natAbs).length) '0'
          ++ Nat.toDigits 16 (updated.tdiv 1000).natAbs ∧
      ((f.ID.drop 22).take 10).length = 10 ∧
      (∀ c ∈ (f.ID.drop 22).take 10, isLowerHex c = true) ∧
      (hexValue ((f.ID.drop 22).take 10) : Int) = f.SecUpdated ∧
      ∀ size2 updated2 : Int, 0 ≤ updated2.tdiv 1000 → updated2.tdiv 1000 < 16 ^ 10 →
        updated2.tdiv 1000 ≠ updated.tdiv 1000 →
        ∃ f2, NewFile Hash path size2 updated2 = some f2 ∧ f2.ID ≠ f.ID := by
  have hp := take_22_length _ h
  have hfield : ∀ u : Int, 0 ≤ u.tdiv 1000 → u.tdiv 1000 < 16 ^ 10 →
      (((Hash path).take 22 ++ timestampField u ++ List.replicate 8 '0').drop 22).take 10 =
        sprintfZeroHex 10 (u.tdiv 1000) := by
    intro u hu0 hult
    rw [fields_mid _ _ _ hp (timestampField_length u), timestampField_of_range u hu0 hult]
  refine ⟨_, NewFile_eq Hash path size updated h, ?_, ?_, ?_, ?_, ?_⟩
  · show ((_ ++ timestampField updated ++ _).drop 22).take 10 = _
    rw [hfield updated h0 hlt, sprintfZeroHex_of_nonneg 10 _ h0]
  · show (((_ ++ timestampField updated ++ _).drop 22).take 10).length = 10
    rw [hfield updated h0 hlt]
    exact sprintfZeroHex_length_eq 10 _ h0 hlt (by decide)
  · show ∀ c ∈ ((_ ++ timestampField updated ++ _).drop 22).take 10, _
    rw [hfield updated h0 hlt]
    exact sprintfZeroHex_all_lowerHex 10 _ h0
  · show (hexValue (((_ ++ timestampField updated ++ _).drop 22).take 10) : Int) =
      updated.tdiv 1000
    rw [hfield updated h0 hlt, hexValue_sprintfZeroHex 10 _ h0, Int.natAbs_of_nonneg h0]
  · intro size2 updated2 h20 h2lt hne
    refine ⟨_, NewFile_eq Hash path size2 updated2 h, ?_⟩
    intro heq
    have heq2 : (Hash path).take 22 ++ timestampField updated2 ++ List.replicate 8 '0' =
        (Hash path).take 22 ++ timestampField updated ++ List.replicate 8 '0' := heq
    have hf := congrArg (fun s => hexValue ((s.drop 22).take 10)) heq2
    simp only [hfield updated h0 hlt, hfield updated2 h20 h2lt,
      hexValue_sprintfZeroHex 10 _ h0, hexValue_sprintfZeroHex 10 _ h20] at hf
    apply hne
    rw [← Int.natAbs_of_nonneg h20, ← Int.natAbs_of_nonneg h0, hf]

/-- C4 at `sampleHash`, path `foo` and 1700000000123 ms, whose second count
1700000000 is `6553f100` in base 16. -/
theorem NewFile_timestamp_field_witness :
    (22 ≤ (sampleHash "foo".toList).length ∧
      0 ≤ (1700000000123 : Int).tdiv 1000 ∧ (1700000000123 : Int).tdiv 1000 < 16 ^ 10) ∧
    (NewFile sampleHash "foo".toList 5 1700000000123).map
        (fun f => (f.ID.drop 22).take 10) = some "006553f100".toList ∧
    ∃ f, NewFile sampleHash "foo".toList 5 1700000000123 = some f ∧
      (f.ID.drop 22).take 10 =
        List.replicate
            (10 - (Nat.toDigits 16 ((1700000000123 : Int).tdiv 1000).natAbs).length) '0'
          ++ Nat.toDigits 16 ((1700000000123 : Int).tdiv 1000).natAbs ∧
      ((f.ID.drop 22).take 10).length = 10 ∧
      (∀ c ∈ (f.ID.drop 22).take 10, isLowerHex c = true) ∧
      (hexValue ((f.ID.drop 22).take 10) : Int) = f.SecUpdated ∧
      ∀ size2 updated2 : Int, 0 ≤ updated2.tdiv 1000 → updated2.tdiv 1000 < 16 ^ 10 →
        updated2.tdiv 1000 ≠ (1700000000123 : Int).tdiv 1000 →
        ∃ f2, NewFile sampleHash "foo".toList size2 updated2 = some f2 ∧ f2.ID ≠ f.ID :=
  ⟨⟨sampleHash_ge22 _, by decide, by decide⟩, by decide,
    NewFile_timestamp_field sampleHash "foo".toList 5 1700000000123 (sampleHash_ge22 _)
      (by decide) (by decide)⟩

/-- C5, as amended. When `util.Hash` returns at least 22 hexadecimal digits and
`updated/1000` is not negative, `NewFile` returns an `ID` of exactly 40
hexadecimal digits, and so does `GenTrueID` on that `File` for any chunk list. -/
theorem ids_are_hex_of_nonneg_seconds (Hash : GoString → GoString) (path : GoString)
    (size updated : Int) (chunks : List GoString)
    (hHash : ∀ b, 22 ≤ (Hash b).length ∧ ∀ c ∈ Hash b, isHexDigit c = true)
    (h0 : 0 ≤ updated.tdiv 1000) :
    ∃ f g, NewFile Hash path size updated = some f ∧
      f.ID.length = 40 ∧ (∀ c ∈ f.ID, isHexDigit c = true) ∧
      finalizedFile Hash path size updated chunks = some g ∧
      g.ID.length = 40 ∧ (∀ c ∈ g.ID, isHexDigit c = true) := by
  have h22 := (hHash path).1
  have hn := NewFile_eq Hash path size updated h22
  have hlen := provisional_length (Hash path) updated h22
  have hhex : ∀ c ∈ (Hash path).take 22 ++ timestampField updated ++ List.replicate 8 '0',
      isHexDigit c = true := by
    intro c hc
    rcases List.mem_append.mp hc with h | h
    · rcases List.mem_append.mp h with h | h
      · exact (hHash path).2 c (List.mem_of_mem_take h)
      · exact isHexDigit_of_isLowerHex
          (sprintfZeroHex_all_lowerHex 10 _ h0 c (List.mem_of_mem_take h))
    · rw [List.eq_of_mem_replicate h]; decide
  have h8 : 8 ≤ (Hash chunks.flatten).length := le_trans (by decide) (hHash chunks.flatten).1
  refine ⟨_, _, hn, hlen, hhex,
    finalizedFile_eq Hash path size updated chunks h22 h8, ?_, ?_⟩
  · show ((Hash path).take 22 ++ timestampField updated
      ++ (Hash chunks.flatten).take 8).length = 40
    simp only [List.length_append, take_22_length _ h22, timestampField_length,
      List.length_take]
    omega
  · intro c hc
    rcases List.mem_append.mp hc with h | h
    · exact hhex c (List.mem_append_left _ h)
    · exact (hHash chunks.flatten).2 c (List.mem_of_mem_take h)

theorem sampleHash_hex (b : GoString) :
    22 ≤ (sampleHash b).length ∧ ∀ c ∈ sampleHash b, isHexDigit c = true :=
  ⟨sampleHash_ge22 b, fun c hc => isHexDigit_of_isLowerHex (sampleHash_lowerHex b c hc)⟩

/-- C5 as amended, at `sampleHash`, path `foo`, 1700000000123 ms and two chunks. -/
theorem ids_are_hex_of_nonneg_seconds_witness :
    ((∀ b, 22 ≤ (sampleHash b).length ∧ ∀ c ∈ sampleHash b, isHexDigit c = true) ∧
      0 ≤ (1700000000123 : Int).tdiv 1000) ∧
    ∃ f g, NewFile sampleHash "foo".toList 5 1700000000123 = some f ∧
      f.ID.length = 40 ∧ (∀ c ∈ f.ID, isHexDigit c = true) ∧
      finalizedFile sampleHash "foo".toList 5 1700000000123 ["ab".toList, "c".toList]
        = some g ∧
      g.ID.length = 40 ∧ (∀ c ∈ g.ID, isHexDigit c = true) :=
  ⟨⟨sampleHash_hex, by decide⟩,
    ids_are_hex_of_nonneg_seconds sampleHash "foo".toList 5 1700000000123
      ["ab".toList, "c".toList] sampleHash_hex (by decide)⟩

/-- C5 as stated fails: with a hash of 40 hexadecimal digits and
`updated = -1000` (one second before the epoch) the `ID` of `NewFile`, and the
one `GenTrueID` leaves, has `'-'` at offset 22, which is no hexadecimal digit. -/
theorem ids_are_hex_fails_for_negative_seconds :
    (∀ b, 22 ≤ (sampleHash b).length ∧ ∀ c ∈ sampleHash b, isHexDigit c = true) ∧
    (NewFile sampleHash "foo".toList 5 (-1000)).map (fun f => f.ID) =
      some "004e73b6bf310a00000000-00000000100000000".toList ∧
    (finalizedFile sampleHash "foo".toList 5 (-1000) ["ab".toList, "c".toList]).map
        (fun f => f.ID) =
      some "004e73b6bf310a00000000-0000000012ecc23b6".toList ∧
    ("004e73b6bf310a00000000-00000000100000000".toList).all isHexDigit = false ∧
    ("004e73b6bf310a00000000-0000000012ecc23b6".toList).all isHexDigit = false :=
  ⟨sampleHash_hex, by decide, by decide, by decide, by decide⟩

/-- C6. `NewFile(path, size1, updated).ID = NewFile(path, size2, updated).ID`
for all sizes; `genCheckID` gives the same result on any two `File`s with the
same `Path` and `Updated`, whatever their `ID`, `Size` and `Chunks`; and the
identifier is produced whenever the hash of the path has 22 characters. -/
theorem NewFile_ID_independent_of_content (Hash : GoString → GoString) (path : GoString)
    (size1 size2 updated : Int) :
    (NewFile Hash path size1 updated).map (fun f => f.ID) =
      (NewFile Hash path size2 updated).map (fun f => f.ID) ∧
    (∀ f g : File, f.Path = g.Path → f.Updated = g.Updated →
      genCheckID Hash f = genCheckID Hash g) ∧
    (22 ≤ (Hash path).length →
      ∃ id, (NewFile Hash path size1 updated).map (fun f => f.ID) = some id) := by
  refine ⟨?_, ?_, ?_⟩
  · simp only [NewFile, Option.map_map]
    rfl
  · intro f g hp hu
    simp only [genCheckID, hp, hu]
  · intro h
    rw [NewFile_eq Hash path size1 updated h]
    exact ⟨_, rfl⟩

/-- C7. Two `File`s built by `NewFile` with the same path and the same updated,
whatever their sizes, and given the same chunk list have the same `ID` after
`GenTrueID`; with a hash of at least 22 characters that `ID` is produced, and
it is the first 22 characters of the path's hash, the timestamp field and the
first 8 characters of the hash of the concatenated chunks. -/
theorem finalized_ID_determined (Hash : GoString → GoString) (path : GoString)
    (size1 size2 updated : Int) (chunks : List GoString)
    (hHash : ∀ b, 22 ≤ (Hash b).length) :
    (finalizedFile Hash path size1 updated chunks).map (fun f => f.ID) =
      (finalizedFile Hash path size2 updated chunks).map (fun f => f.ID) ∧
    (finalizedFile Hash path size1 updated chunks).map (fun f => f.ID) =
      some ((Hash path).take 22 ++ timestampField updated ++ (Hash chunks.flatten).take 8) := by
  have h8 : 8 ≤ (Hash chunks.flatten).length := le_trans (by decide) (hHash chunks.flatten)
  have key : ∀ size : Int, (finalizedFile Hash path size updated chunks).map (fun f => f.ID) =
      some ((Hash path).take 22 ++ timestampField updated ++ (Hash chunks.flatten).take 8) := by
    intro size
    rw [finalizedFile_eq Hash path size updated chunks (hHash path) h8]
    rfl
  exact ⟨(key size1).trans (key size2).symm, key size1⟩

/-- C7 at `sampleHash`: sizes 5 and 7, path `foo`, chunks `ab`, `c`. -/
theorem finalized_ID_determined_witness :
    (∀ b, 22 ≤ (sampleHash b).length) ∧
    (finalizedFile sampleHash "foo".toList 5 1700000000123 ["ab".toList, "c".toList]).map
        (fun f => f.ID) =
      (finalizedFile sampleHash "foo".toList 7 1700000000123 ["ab".toList, "c".toList]).map
        (fun f => f.ID) ∧
    (finalizedFile sampleHash "foo".toList 5 1700000000123 ["ab".toList, "c".toList]).map
        (fun f => f.ID) =
      some ((sampleHash "foo".toList).take 22 ++ timestampField 1700000000123
        ++ (sampleHash ["ab".toList, "c".toList].flatten).take 8) :=
  ⟨sampleHash_ge22,
    finalized_ID_determined sampleHash "foo".toList 5 7 1700000000123
      ["ab".toList, "c".toList] sampleHash_ge22⟩

/-- C8, as amended. Two `File`s with the same path and updated and chunk lists
`c1`, `c2` get different ids from `GenTrueID` exactly when the first 8
characters of `util.Hash` of the two concatenations differ; chunk lists with
the same concatenation get the same id. -/
theorem finalized_IDs_differ_iff (Hash : GoString → GoString) (path : GoString)
    (size1 size2 updated : Int) (c1 c2 : List GoString)
    (hHash : ∀ b, 22 ≤ (Hash b).length) :
    ∃ f1 f2, finalizedFile Hash path size1 updated c1 = some f1 ∧
      finalizedFile Hash path size2 updated c2 = some f2 ∧
      (f1.ID ≠ f2.ID ↔ (Hash c1.flatten).take 8 ≠ (Hash c2.flatten).take 8) ∧
      (c1.flatten = c2.flatten → f1.ID = f2.ID) := by
  have h8 : ∀ b, 8 ≤ (Hash b).length := fun b => le_trans (by decide) (hHash b)
  refine ⟨_, _, finalizedFile_eq Hash path size1 updated c1 (hHash path) (h8 _),
    finalizedFile_eq Hash path size2 updated c2 (hHash path) (h8 _), ?_, ?_⟩
  · show (_ ++ (Hash c1.flatten).take 8 ≠ _ ++ (Hash c2.flatten).take 8) ↔ _
    rw [Ne, List.append_right_inj]
  · intro h
    show _ ++ (Hash c1.flatten).take 8 = _ ++ (Hash c2.flatten).take 8
    rw [h]

/-- C8 as amended, at `sampleHash`, path `foo`, chunk lists `ab`, `c` and `a`,
`aa`, whose ids end in `2ecc23b6` and `fdbc23b6`. -/
theorem finalized_IDs_differ_iff_witness :
    (∀ b, 22 ≤ (sampleHash b).length) ∧
    (finalizedFile sampleHash "foo".toList 5 1700000000123
        ["ab".toList, "c".toList]).map (fun f => f.ID) =
      some "004e73b6bf310a00000000006553f1002ecc23b6".toList ∧
    (finalizedFile sampleHash "foo".toList 5 1700000000123
        ["a".toList, "aa".toList]).map (fun f => f.ID) =
      some "004e73b6bf310a00000000006553f100fdbc23b6".toList ∧
    ∃ f1 f2, finalizedFile sampleHash "foo".toList 5 1700000000123
        ["ab".toList, "c".toList] = some f1 ∧
      finalizedFile sampleHash "foo".toList 5 1700000000123
        ["a".toList, "aa".toList] = some f2 ∧
      (f1.ID ≠ f2.ID ↔
        (sampleHash ["ab".toList, "c".toList].flatten).take 8 ≠
          (sampleHash ["a".toList, "aa".toList].flatten).take 8) ∧
      (["ab".toList, "c".toList].flatten = ["a".toList, "aa".toList].flatten →
        f1.ID = f2.ID) :=
  ⟨sampleHash_ge22, by decide, by decide,
    finalized_IDs_differ_iff sampleHash "foo".toList 5 5 1700000000123
      ["ab".toList, "c".toList] ["a".toList, "aa".toList] sampleHash_ge22⟩

/-- C8 as stated fails: the chunk lists `ab`, `c` and `a`, `bc` differ as
sequences, and so do `a`, `aa` and its reordering `aa`, `a`, yet for every
hash and every `File` `GenTrueID` leaves the same `ID` for both lists of a
pair; with `sampleHash` and path `foo` both ids of the first pair are
`004e73b6bf310a00000000006553f1002ecc23b6`. -/
theorem distinct_chunk_lists_same_ID :
    (["ab".toList, "c".toList] ≠ ["a".toList, "bc".toList] ∧
      ["a".toList, "aa".toList] ≠ ["aa".toList, "a".toList] ∧
      List.Perm ["a".toList, "aa".toList] ["aa".toList, "a".toList]) ∧
    (∀ (Hash : GoString → GoString) (f : File),
      (GenTrueID Hash { f with Chunks := ["ab".toList, "c".toList] }).map (fun g => g.ID) =
        (GenTrueID Hash { f with Chunks := ["a".toList, "bc".toList] }).map (fun g => g.ID) ∧
      (GenTrueID Hash { f with Chunks := ["a".toList, "aa".toList] }).map (fun g => g.ID) =
        (GenTrueID Hash { f with Chunks := ["aa".toList, "a".toList] }).map (fun g => g.ID)) ∧
    (finalizedFile sampleHash "foo".toList 5 1700000000123
        ["ab".toList, "c".toList]).map (fun f => f.ID) =
      some "004e73b6bf310a00000000006553f1002ecc23b6".toList ∧
    (finalizedFile sampleHash "foo".toList 5 1700000000123
        ["a".toList, "bc".toList]).map (fun f => f.ID) =
      some "004e73b6bf310a00000000006553f1002ecc23b6".toList := by
  refine ⟨⟨by decide, by decide, ?_⟩, ?_, by decide, by decide⟩
  · exact List.Perm.swap _ _ _
  · intro Hash f
    exact ⟨GenTrueID_ID_congr Hash f _ _ (by decide), GenTrueID_ID_congr Hash f _ _ (by decide)⟩

/-- C9. For every path, size and updated, negative and arbitrarily large
values included, `NewFile` returns (no slice is out of range) an `ID` of exactly
40 characters when `util.Hash` returns at least 22 characters; and `GenTrueID`
on that `File`, with any chunk list, returns and leaves an `ID` of exactly 40
characters when the hash used returns at least 8 characters. -/
theorem NewFile_GenTrueID_in_range (Hash : GoString → GoString) (path : GoString)
    (size updated : Int) (h22 : ∀ b, 22 ≤ (Hash b).length) :
    ∃ f, NewFile Hash path size updated = some f ∧ f.ID.length = 40 ∧
      ∀ (Hash2 : GoString → GoString), (∀ b, 8 ≤ (Hash2 b).length) →
        ∀ chunks : List GoString,
          ∃ g, GenTrueID Hash2 { f with Chunks := chunks } = some g ∧ g.ID.length = 40 := by
  have hlen := provisional_length (Hash path) updated (h22 path)
  refine ⟨_, NewFile_eq Hash path size updated (h22 path), hlen, ?_⟩
  intro Hash2 h8 chunks
  refine ⟨_, GenTrueID_eq Hash2 _ (by
    show 32 ≤ ((Hash path).take 22 ++ timestampField updated
      ++ List.replicate 8 '0').length
    omega) (h8 _), ?_⟩
  show (List.take 32 ((Hash path).take 22 ++ timestampField updated ++ List.replicate 8 '0')
    ++ (Hash2 chunks.flatten).take 8).length = 40
  have := h8 chunks.flatten
  rw [List.length_append, List.length_take, List.length_take]
  omega

/-- C9 at `sampleHash`, path `foo` and the most negative `int64`. -/
theorem NewFile_GenTrueID_in_range_witness :
    (∀ b, 22 ≤ (sampleHash b).length) ∧
    (NewFile sampleHash "foo".toList 5 (-9223372036854775808)).map (fun f => f.ID) =
      some "004e73b6bf310a00000000-20c49ba5e00000000".toList ∧
    ∃ f, NewFile sampleHash "foo".toList 5 (-9223372036854775808) = some f ∧
      f.ID.length = 40 ∧
      ∀ (Hash2 : GoString → GoString), (∀ b, 8 ≤ (Hash2 b).length) →
        ∀ chunks : List GoString,
          ∃ g, GenTrueID Hash2 { f with Chunks := chunks } = some g ∧ g.ID.length = 40 :=
  ⟨sampleHash_ge22, by decide,
    NewFile_GenTrueID_in_range sampleHash "foo".toList 5 (-9223372036854775808)
      sampleHash_ge22⟩

/-! ## The indexer on a tree without files -/

/-- C10. On a repository with no prior `Index`, `Repo.Index` over a data tree
that yields no file (the tree is empty, or every file of it is ignored) fails
with `EmptyIndex`, so no `Index` is returned. -/
theorem Index_empty_tree_fails (env : Collaborators) (r : Repo) (tree : List TreeEntry)
    (memo : GoString) (now : Int) (hnone : r.history = [])
    (hign : ∀ e ∈ tree, env.shouldIgnore e.Path = true) :
    Repo.Index env r tree memo now = .error .EmptyIndex := by
  have hw : tree.filter (fun e => !env.shouldIgnore e.Path) = [] := by
    rw [List.filter_eq_nil_iff]
    intro e he
    simp [hign e he]
  simp only [Repo.Index, hw, indexFiles, hnone]
  rfl

/-- C10 on the never-indexed repository, with the ignore list `bar` of
`repo_test.go`: a tree whose only file is `bar`, and the empty directory. -/
theorem Index_empty_tree_fails_witness :
    (emptyRepo.history = [] ∧
      ∀ e ∈ [({ Path := "bar".toList, Size := 5, Updated := 1700000000123,
                Content := some "hello".toList } : TreeEntry)],
        sampleEnv.shouldIgnore e.Path = true) ∧
    Repo.Index sampleEnv emptyRepo
        [{ Path := "bar".toList, Size := 5, Updated := 1700000000123,
           Content := some "hello".toList }] "Index 1".toList 0 = .error .EmptyIndex ∧
    Repo.Index sampleEnv emptyRepo [] "Index 1".toList 0 = .error .EmptyIndex :=
  ⟨⟨rfl, by simp [sampleEnv]⟩,
    Index_empty_tree_fails sampleEnv emptyRepo _ "Index 1".toList 0 rfl
      (by simp [sampleEnv]),
    rfl⟩

/-! ## Behaviour of the two phases -/

/-- C13. `GenTrueID` sees the chunk list only through its concatenation: for
every hash, every `File` and every two chunk lists with the same concatenation
the resulting `ID`s are equal, and the `ID` is produced when the old one has 32
characters and the hash 8. -/
theorem GenTrueID_depends_on_concatenation (Hash : GoString → GoString) (f : File)
    (c1 c2 : List GoString) (h : c1.flatten = c2.flatten) :
    (GenTrueID Hash { f with Chunks := c1 }).map (fun g => g.ID) =
      (GenTrueID Hash { f with Chunks := c2 }).map (fun g => g.ID) ∧
    (32 ≤ f.ID.length → 8 ≤ (Hash c1.flatten).length →
      (GenTrueID Hash { f with Chunks := c1 }).map (fun g => g.ID) =
        some (f.ID.take 32 ++ (Hash c1.flatten).take 8)) := by
  refine ⟨GenTrueID_ID_congr Hash f c1 c2 h, ?_⟩
  intro hid h8
  rw [GenTrueID_eq Hash { f with Chunks := c1 } hid h8]
  rfl

/-- C13 at `sampleHash`: the lists `ab`, `c` and `a`, `bc`, and the reorderings
`a`, `aa` and `aa`, `a`, are distinct and leave the same `ID`. -/
theorem GenTrueID_depends_on_concatenation_witness :
    (["ab".toList, "c".toList] ≠ ["a".toList, "bc".toList] ∧
      ["ab".toList, "c".toList].flatten = ["a".toList, "bc".toList].flatten ∧
      ["a".toList, "aa".toList] ≠ ["aa".toList, "a".toList] ∧
      ["a".toList, "aa".toList].flatten = ["aa".toList, "a".toList].flatten) ∧
    (GenTrueID sampleHash
        { ID := "004e73b6bf310a00000000006553f10000000000".toList, Path := "foo".toList,
          Size := 5, Updated := 1700000000123, Chunks := ["ab".toList, "c".toList] }).map
        (fun g => g.ID) =
      (GenTrueID sampleHash
        { ID := "004e73b6bf310a00000000006553f10000000000".toList, Path := "foo".toList,
          Size := 5, Updated := 1700000000123, Chunks := ["a".toList, "bc".toList] }).map
        (fun g => g.ID) ∧
    (GenTrueID sampleHash
        { ID := "004e73b6bf310a00000000006553f10000000000".toList, Path := "foo".toList,
          Size := 5, Updated := 1700000000123, Chunks := ["a".toList, "aa".toList] }).map
        (fun g => g.ID) =
      (GenTrueID sampleHash
        { ID := "004e73b6bf310a00000000006553f10000000000".toList, Path := "foo".toList,
          Size := 5, Updated := 1700000000123, Chunks := ["aa".toList, "a".toList] }).map
        (fun g => g.ID) ∧
    (GenTrueID sampleHash
        { ID := "004e73b6bf310a00000000006553f10000000000".toList, Path := "foo".toList,
          Size := 5, Updated := 1700000000123, Chunks := ["ab".toList, "c".toList] }).map
        (fun g => g.ID) = some "004e73b6bf310a00000000006553f1002ecc23b6".toList :=
  ⟨⟨by decide, by decide, by decide, by decide⟩,
    (GenTrueID_depends_on_concatenation sampleHash
      { ID := "004e73b6bf310a00000000006553f10000000000".toList, Path := "foo".toList,
        Size := 5, Updated := 1700000000123, Chunks := [] }
      ["ab".toList, "c".toList] ["a".toList, "bc".toList] (by decide)).1,
    (GenTrueID_depends_on_concatenation sampleHash
      { ID := "004e73b6bf310a00000000006553f10000000000".toList, Path := "foo".toList,
        Size := 5, Updated := 1700000000123, Chunks := [] }
      ["a".toList, "aa".toList] ["aa".toList, "a".toList] (by decide)).1,
    by decide⟩

theorem tdiv_1000_bounds_of_nonneg (u : Int) (h : 0 ≤ u) :
    1000 * u.tdiv 1000 ≤ u ∧ u < 1000 * u.tdiv 1000 + 1000 := by
  have h1 := Int.tmod_add_tdiv u 1000
  have h2 := Int.tmod_nonneg 1000 h
  have h3 := Int.tmod_lt_of_pos u (by decide : (0 : Int) < 1000)
  omega

theorem tdiv_1000_bounds_of_nonpos (u : Int) (h : u ≤ 0) :
    u ≤ 1000 * u.tdiv 1000 ∧ 1000 * u.tdiv 1000 - 1000 < u := by
  have hb := tdiv_1000_bounds_of_nonneg (-u) (by omega)
  rw [Int.neg_tdiv] at hb
  omega

/-- C14. `SecUpdated()` is `Updated/1000` truncated toward zero (the remainder
has the sign of `Updated` and is smaller than 1000 in absolute value), and two
millisecond timestamps with the same `/1000` give `NewFile` the same `ID` for
the same path, whatever the sizes; the `ID` is produced when the path's hash
has 22 characters. -/
theorem NewFile_second_resolution (Hash : GoString → GoString) (path : GoString)
    (size1 size2 u1 u2 : Int) (h : u1.tdiv 1000 = u2.tdiv 1000) :
    (NewFile Hash path size1 u1).map (fun f => f.ID) =
      (NewFile Hash path size2 u2).map (fun f => f.ID) ∧
    (22 ≤ (Hash path).length →
      ∃ id, (NewFile Hash path size1 u1).map (fun f => f.ID) = some id) ∧
    (∀ f : File, f.SecUpdated = f.Updated.tdiv 1000 ∧
      (0 ≤ f.Updated →
        1000 * f.SecUpdated ≤ f.Updated ∧ f.Updated < 1000 * f.SecUpdated + 1000) ∧
      (f.Updated ≤ 0 →
        f.Updated ≤ 1000 * f.SecUpdated ∧ 1000 * f.SecUpdated - 1000 < f.Updated)) := by
  refine ⟨?_, ?_, ?_⟩
  · simp only [NewFile, genCheckID, Option.map_map, h]
    rfl
  · intro h22
    rw [NewFile_eq Hash path size1 u1 h22]
    exact ⟨_, rfl⟩
  · intro f
    exact ⟨rfl, tdiv_1000_bounds_of_nonneg f.Updated, tdiv_1000_bounds_of_nonpos f.Updated⟩

/-- C14 at `sampleHash`, path `foo` and the timestamps 1000 and 1999 of the
same second; `-1999/1000` is `-1`. -/
theorem NewFile_second_resolution_witness :
    (1000 : Int).tdiv 1000 = (1999 : Int).tdiv 1000 ∧
    ((NewFile sampleHash "foo".toList 5 1000).map (fun f => f.ID) =
      (NewFile sampleHash "foo".toList 7 1999).map (fun f => f.ID) ∧
    (22 ≤ (sampleHash "foo".toList).length →
      ∃ id, (NewFile sampleHash "foo".toList 5 1000).map (fun f => f.ID) = some id) ∧
    (∀ f : File, f.SecUpdated = f.Updated.tdiv 1000 ∧
      (0 ≤ f.Updated →
        1000 * f.SecUpdated ≤ f.Updated ∧ f.Updated < 1000 * f.SecUpdated + 1000) ∧
      (f.Updated ≤ 0 →
        f.Updated ≤ 1000 * f.SecUpdated ∧ 1000 * f.SecUpdated - 1000 < f.Updated))) ∧
    (NewFile sampleHash "foo".toList 7 1999).map (fun f => f.ID) =
      some "004e73b6bf310a00000000000000000100000000".toList ∧
    File.SecUpdated { ID := [], Path := [], Size := 0, Updated := -1999, Chunks := [] } = -1 :=
  ⟨by decide, NewFile_second_resolution sampleHash "foo".toList 5 7 1000 1999 (by decide),
    by decide, by decide⟩

theorem lt_pow_toDigitsCore_length (fuel : Nat) :
    ∀ n, n < fuel → n < 16 ^ (Nat.toDigitsCore 16 fuel n []).length := by
  induction fuel with
  | zero => intro n h; omega
  | succ fuel ih =>
    intro n h
    simp only [Nat.toDigitsCore]
    split
    · rename_i h0
      simp only [List.length_singleton, pow_one]
      omega
    · rename_i h0
      rw [toDigitsCore_append, List.length_append, List.length_singleton, pow_succ]
      have := ih (n / 16) (by omega)
      omega

/-- A number is smaller than 16 to the number of its hexadecimal digits. -/
theorem lt_pow_toDigits_length (n : Nat) : n < 16 ^ (Nat.toDigits 16 n).length :=
  lt_pow_toDigitsCore_length (n + 1) n (Nat.lt_succ_self n)

theorem toDigitsCore_digit_lt (fuel : Nat) :
    ∀ n, ∀ c ∈ Nat.toDigitsCore 16 fuel n [], hexDigitVal c < 16 := by
  induction fuel with
  | zero => intro n c hc; simp [Nat.toDigitsCore] at hc
  | succ fuel ih =>
    intro n c hc
    simp only [Nat.toDigitsCore] at hc
    split at hc
    · simp only [List.mem_singleton] at hc
      subst hc
      rw [hexDigitVal_digitChar _ (Nat.mod_lt _ (by decide))]
      exact Nat.mod_lt _ (by decide)
    · rw [toDigitsCore_append] at hc
      rcases List.mem_append.mp hc with h | h
      · exact ih _ c h
      · simp only [List.mem_singleton] at h
        subst h
        rw [hexDigitVal_digitChar _ (Nat.mod_lt _ (by decide))]
        exact Nat.mod_lt _ (by decide)

theorem hexValue_cons (c : Char) (s : GoString) :
    hexValue (c :: s) = hexDigitVal c * 16 ^ s.length + hexValue s := by
  have h := hexValue_append [c] s
  simp only [List.singleton_append] at h
  rw [h]
  simp [hexValue]

theorem hexValue_lt (s : GoString) (h : ∀ c ∈ s, hexDigitVal c < 16) :
    hexValue s < 16 ^ s.length := by
  induction s with
  | nil => simp [hexValue]
  | cons c cs ih =>
    have hc := h c (List.mem_cons_self c cs)
    have hcs := ih (fun d hd => h d (List.mem_cons_of_mem c hd))
    rw [hexValue_cons, List.length_cons, pow_succ]
    nlinarith

/-- The first `k` hexadecimal digits of `n` denote `n` without its low-order
digits. -/
theorem hexValue_take_toDigits (n k : Nat) :
    hexValue ((Nat.toDigits 16 n).take k) = n / 16 ^ ((Nat.toDigits 16 n).length - k) := by
  have hsplit := hexValue_append ((Nat.toDigits 16 n).take k) ((Nat.toDigits 16 n).drop k)
  rw [List.take_append_drop, hexValue_toDigits, List.length_drop] at hsplit
  have hlow : hexValue ((Nat.toDigits 16 n).drop k) <
      16 ^ ((Nat.toDigits 16 n).length - k) := by
    have := hexValue_lt ((Nat.toDigits 16 n).drop k)
      (fun c hc => toDigitsCore_digit_lt (n + 1) n c (List.mem_of_mem_drop hc))
    rwa [List.length_drop] at this
  have key : ∀ m a b q : Nat, m = a * q + b → b < q → a = m / q := by
    intro m a b q h1 h2
    subst h1
    rw [Nat.add_comm, Nat.add_mul_div_right _ _ (by omega), Nat.div_eq_of_lt h2]
    simp
  exact key _ _ _ _ hsplit hlow

theorem timestampField_of_large (updated : Int) (hbig : 16 ^ 10 ≤ updated.tdiv 1000) :
    10 < (Nat.toDigits 16 (updated.tdiv 1000).natAbs).length ∧
    timestampField updated = (Nat.toDigits 16 (updated.tdiv 1000).natAbs).take 10 := by
  have h0 : 0 ≤ updated.tdiv 1000 := le_trans (by positivity) hbig
  have hn : 16 ^ 10 ≤ (updated.tdiv 1000).natAbs := by
    have : ((16 ^ 10 : Nat) : Int) ≤ ((updated.tdiv 1000).natAbs : Int) := by
      rw [Int.natAbs_of_nonneg h0]; exact_mod_cast hbig
    exact_mod_cast this
  have hlen : 10 < (Nat.toDigits 16 (updated.tdiv 1000).natAbs).length := by
    by_contra hle
    have hlt := lt_pow_toDigits_length (updated.tdiv 1000).natAbs
    have hpow : 16 ^ (Nat.toDigits 16 (updated.tdiv 1000).natAbs).length ≤ 16 ^ 10 :=
      Nat.pow_le_pow_right (by decide) (by omega)
    omega
  refine ⟨hlen, ?_⟩
  simp only [timestampField]
  rw [sprintfZeroHex_of_nonneg 10 _ h0]
  have hz : 10 - (Nat.toDigits 16 (updated.tdiv 1000).natAbs).length = 0 := by omega
  rw [hz]
  simp

/-- C15. When `updated/1000` is `16^10` or more (and the path's hash has 22
characters), its hexadecimal numeral has more than 10 digits and characters
22..32 of the `ID` of `NewFile` are its first 10, the most significant ones:
the field denotes `updated/1000` divided by 16 to the number of dropped digits.
So the second counts `16^10`, `16^10 + 1` and `16^9` give the same `ID` for the
same path. -/
theorem NewFile_timestamp_keeps_high_digits (Hash : GoString → GoString) (path : GoString)
    (size updated : Int) (h22 : 22 ≤ (Hash path).length)
    (hbig : 16 ^ 10 ≤ updated.tdiv 1000) :
    (∃ f, NewFile Hash path size updated = some f ∧
      10 < (Nat.toDigits 16 (updated.tdiv 1000).natAbs).length ∧
      (f.ID.drop 22).take 10 = (Nat.toDigits 16 (updated.tdiv 1000).natAbs).take 10 ∧
      hexValue ((f.ID.drop 22).take 10) =
        (updated.tdiv 1000).natAbs /
          16 ^ ((Nat.toDigits 16 (updated.tdiv 1000).natAbs).length - 10)) ∧
    (NewFile Hash path size (16 ^ 10 * 1000)).map (fun f => f.ID) =
      (NewFile Hash path size ((16 ^ 10 + 1) * 1000)).map (fun f => f.ID) ∧
    (NewFile Hash path size (16 ^ 10 * 1000)).map (fun f => f.ID) =
      (NewFile Hash path size (16 ^ 9 * 1000)).map (fun f => f.ID) := by
  obtain ⟨hlen, hfield⟩ := timestampField_of_large updated hbig
  have hp := take_22_length _ h22
  have hmid : (((Hash path).take 22 ++ timestampField updated ++ List.replicate 8 '0').drop 22
      ).take 10 = (Nat.toDigits 16 (updated.tdiv 1000).natAbs).take 10 := by
    rw [fields_mid _ _ _ hp (timestampField_length updated), hfield]
  have hsame : ∀ u1 u2 : Int, timestampField u1 = timestampField u2 →
      (NewFile Hash path size u1).map (fun f => f.ID) =
        (NewFile Hash path size u2).map (fun f => f.ID) := by
    intro u1 u2 hu
    rw [NewFile_eq Hash path size u1 h22, NewFile_eq Hash path size u2 h22]
    rw [hu]
    rfl
  refine ⟨⟨_, NewFile_eq Hash path size updated h22, hlen, hmid, ?_⟩, ?_, ?_⟩
  · show hexValue ((((Hash path).take 22 ++ timestampField updated
      ++ List.replicate 8 '0').drop 22).take 10) = _
    rw [hmid, hexValue_take_toDigits]
  · exact hsame _ _ (by decide)
  · exact hsame _ _ (by decide)

/-- C15 at `sampleHash`, path `foo` and `16^10 + 1` seconds: the field is
`1000000000`, as for `16^10` and `16^9` seconds. -/
theorem NewFile_timestamp_keeps_high_digits_witness :
    (22 ≤ (sampleHash "foo".toList).length ∧
      (16 : Int) ^ 10 ≤ (((16 : Int) ^ 10 + 1) * 1000).tdiv 1000) ∧
    (NewFile sampleHash "foo".toList 5 ((16 ^ 10 + 1) * 1000)).map (fun f => f.ID) =
      some "004e73b6bf310a00000000100000000000000000".toList ∧
    (NewFile sampleHash "foo".toList 5 (16 ^ 9 * 1000)).map (fun f => f.ID) =
      some "004e73b6bf310a00000000100000000000000000".toList ∧
    ((∃ f, NewFile sampleHash "foo".toList 5 ((16 ^ 10 + 1) * 1000) = some f ∧
      10 < (Nat.toDigits 16 ((((16 : Int) ^ 10 + 1) * 1000).tdiv 1000).natAbs).length ∧
      (f.ID.drop 22).take 10 =
        (Nat.toDigits 16 ((((16 : Int) ^ 10 + 1) * 1000).tdiv 1000).natAbs).take 10 ∧
      hexValue ((f.ID.drop 22).take 10) =
        ((((16 : Int) ^ 10 + 1) * 1000).tdiv 1000).natAbs /
          16 ^ ((Nat.toDigits 16
            ((((16 : Int) ^ 10 + 1) * 1000).tdiv 1000).natAbs).length - 10)) ∧
    (NewFile sampleHash "foo".toList 5 (16 ^ 10 * 1000)).map (fun f => f.ID) =
      (NewFile sampleHash "foo".toList 5 ((16 ^ 10 + 1) * 1000)).map (fun f => f.ID) ∧
    (NewFile sampleHash "foo".toList 5 (16 ^ 10 * 1000)).map (fun f => f.ID) =
      (NewFile sampleHash "foo".toList 5 (16 ^ 9 * 1000)).map (fun f => f.ID)) :=
  ⟨⟨sampleHash_ge22 _, by decide⟩, by decide, by decide,
    NewFile_timestamp_keeps_high_digits sampleHash "foo".toList 5 ((16 ^ 10 + 1) * 1000)
      (sampleHash_ge22 _) (by decide)⟩

/-- C16. For every `File` with an `ID` of at least 32 characters (the hash
returning at least 8) `GenTrueID` returns a `File` on which a second call,
with `Chunks` unchanged, returns that same `File`: same `ID`, same other
fields. -/
theorem GenTrueID_idempotent (Hash : GoString → GoString) (f : File)
    (hid : 32 ≤ f.ID.length) (hHash : ∀ b, 8 ≤ (Hash b).length) :
    ∃ g, GenTrueID Hash f = some g ∧ GenTrueID Hash g = some g ∧
      (GenTrueID Hash f).bind (GenTrueID Hash) = GenTrueID Hash f := by
  have h8 := hHash f.Chunks.flatten
  have hl : (f.ID.take 32).length = 32 := by
    rw [List.length_take]; omega
  have h1 := GenTrueID_eq Hash f hid h8
  have h2 : GenTrueID Hash { f with ID := f.ID.take 32 ++ (Hash f.Chunks.flatten).take 8 } =
      some { f with ID := f.ID.take 32 ++ (Hash f.Chunks.flatten).take 8 } := by
    have hid2 : 32 ≤ (f.ID.take 32 ++ (Hash f.Chunks.flatten).take 8).length := by
      rw [List.length_append]; omega
    have h := GenTrueID_eq Hash
      { f with ID := f.ID.take 32 ++ (Hash f.Chunks.flatten).take 8 } hid2 h8
    rw [h]
    show some { f with ID := (f.ID.take 32 ++ (Hash f.Chunks.flatten).take 8).take 32
      ++ (Hash f.Chunks.flatten).take 8 } = _
    rw [List.take_append_of_le_length (by omega), List.take_take]
    simp
  refine ⟨_, h1, h2, ?_⟩
  rw [h1, Option.some_bind, h2]

/-- C16 at `sampleHash` and the provisional file `foo` with two chunks. -/
theorem GenTrueID_idempotent_witness :
    (32 ≤ "004e73b6bf310a00000000006553f10000000000".toList.length ∧
      ∀ b, 8 ≤ (sampleHash b).length) ∧
    (GenTrueID sampleHash
        { ID := "004e73b6bf310a00000000006553f10000000000".toList, Path := "foo".toList,
          Size := 5, Updated := 1700000000123, Chunks := ["ab".toList, "c".toList] }).map
        (fun g => g.ID) = some "004e73b6bf310a00000000006553f1002ecc23b6".toList ∧
    ∃ g, GenTrueID sampleHash
        { ID := "004e73b6bf310a00000000006553f10000000000".toList, Path := "foo".toList,
          Size := 5, Updated := 1700000000123, Chunks := ["ab".toList, "c".toList] }
        = some g ∧
      GenTrueID sampleHash g = some g ∧
      (GenTrueID sampleHash
        { ID := "004e73b6bf310a00000000006553f10000000000".toList, Path := "foo".toList,
          Size := 5, Updated := 1700000000123, Chunks := ["ab".toList, "c".toList] }).bind
        (GenTrueID sampleHash) =
      GenTrueID sampleHash
        { ID := "004e73b6bf310a00000000006553f10000000000".toList, Path := "foo".toList,
          Size := 5, Updated := 1700000000123, Chunks := ["ab".toList, "c".toList] } :=
  ⟨⟨by decide, sampleHash_ge8⟩, by decide,
    GenTrueID_idempotent sampleHash
      { ID := "004e73b6bf310a00000000006553f10000000000".toList, Path := "foo".toList,
        Size := 5, Updated := 1700000000123, Chunks := ["ab".toList, "c".toList] }
      (by decide) sampleHash_ge8⟩

theorem GenTrueID_fields (Hash : GoString → GoString) (f g : File)
    (h : GenTrueID Hash f = some g) :
    g.Path = f.Path ∧ g.Size = f.Size ∧ g.Updated = f.Updated ∧ g.Chunks = f.Chunks := by
  simp only [GenTrueID] at h
  cases hp : sliceTo f.ID ChunkHashIndex with
  | none => rw [hp] at h; exact absurd h (by simp)
  | some p =>
    cases hc : sliceTo (Hash (writeChunks f.Chunks)) (IDLen - ChunkHashIndex) with
    | none => rw [hp, hc] at h; exact absurd h (by simp)
    | some c =>
      rw [hp, hc] at h
      simp only [Option.some_bind, Option.some.injEq] at h
      subst h
      exact ⟨rfl, rfl, rfl, rfl⟩

/-- C17. `GenTrueID` changes only the `ID`: whenever it returns, `Path`, `Size`,
`Updated` and `Chunks` (in their order) are those of the receiver, and it
returns for every `File` with an `ID` of at least 32 characters; `NewFile`
returns a `File` with the given path, size and updated and an empty chunk
list.  The hash is assumed to return at least 22 characters. -/
theorem GenTrueID_NewFile_frame (Hash : GoString → GoString)
    (hHash : ∀ b, 22 ≤ (Hash b).length) :
    (∀ f g : File, GenTrueID Hash f = some g →
      g.Path = f.Path ∧ g.Size = f.Size ∧ g.Updated = f.Updated ∧ g.Chunks = f.Chunks) ∧
    (∀ f : File, 32 ≤ f.ID.length →
      ∃ g, GenTrueID Hash f = some g ∧
        g.Path = f.Path ∧ g.Size = f.Size ∧ g.Updated = f.Updated ∧ g.Chunks = f.Chunks) ∧
    (∀ (path : GoString) (size updated : Int),
      ∃ f, NewFile Hash path size updated = some f ∧
        f.Path = path ∧ f.Size = size ∧ f.Updated = updated ∧ f.Chunks = []) := by
  refine ⟨GenTrueID_fields Hash, ?_, ?_⟩
  · intro f hid
    have h := GenTrueID_eq Hash f hid (le_trans (by decide) (hHash f.Chunks.flatten))
    exact ⟨_, h, GenTrueID_fields Hash f _ h⟩
  · intro path size updated
    exact ⟨_, NewFile_eq Hash path size updated (hHash path), rfl, rfl, rfl, rfl⟩

/-- C17 at `sampleHash`: the chunk list `b`, `a` stays in that order. -/
theorem GenTrueID_NewFile_frame_witness :
    (∀ b, 22 ≤ (sampleHash b).length) ∧
    (GenTrueID sampleHash
        { ID := "004e73b6bf310a00000000006553f10000000000".toList, Path := "foo".toList,
          Size := 5, Updated := 1700000000123, Chunks := ["b".toList, "a".toList] }).map
        (fun g => g.Chunks) = some ["b".toList, "a".toList] ∧
    ((∀ f g : File, GenTrueID sampleHash f = some g →
      g.Path = f.Path ∧ g.Size = f.Size ∧ g.Updated = f.Updated ∧ g.Chunks = f.Chunks) ∧
    (∀ f : File, 32 ≤ f.ID.length →
      ∃ g, GenTrueID sampleHash f = some g ∧
        g.Path = f.Path ∧ g.Size = f.Size ∧ g.Updated = f.Updated ∧ g.Chunks = f.Chunks) ∧
    (∀ (path : GoString) (size updated : Int),
      ∃ f, NewFile sampleHash path size updated = some f ∧
        f.Path = path ∧ f.Size = size ∧ f.Updated = updated ∧ f.Chunks = [])) :=
  ⟨sampleHash_ge22, by decide, GenTrueID_NewFile_frame sampleHash sampleHash_ge22⟩

/-! ## Re-indexing -/

theorem GenTrueID_take_32 (Hash : GoString → GoString) (f g : File)
    (h : GenTrueID Hash f = some g) : g.ID.take 32 = f.ID.take 32 := by
  by_cases hid : 32 ≤ f.ID.length
  · by_cases h8 : 8 ≤ (Hash f.Chunks.flatten).length
    · rw [GenTrueID_eq Hash f hid h8] at h
      simp only [Option.some.injEq] at h
      subst h
      have hl : (f.ID.take 32).length = 32 := by
        rw [List.length_take]; omega
      show (f.ID.take 32 ++ _).take 32 = _
      rw [List.take_append_of_le_length (by omega), List.take_take]
      simp
    · exfalso
      simp only [GenTrueID, ChunkHashIndex, IDLen, writeChunks_eq_join] at h
      rw [sliceTo_of_le hid, sliceTo_of_lt (by omega)] at h
      simp at h
  · exfalso
    simp only [GenTrueID, ChunkHashIndex] at h
    rw [sliceTo_of_lt (by omega)] at h
    simp at h

/-- What `indexFile` returns for a walked file: a `File` whose `ID` agrees with
the provisional one on the first 32 characters, taken from the latest files or
among the `File`s written; nothing written before is lost. -/
theorem indexFile_ok (env : Collaborators) (latest : List File) (objects : Store)
    (written : List File) (e : TreeEntry) (f : File) (objects1 : Store)
    (written1 : List File)
    (h : indexFile env latest objects written e = .ok (f, objects1, written1)) :
    (∃ p, NewFile env.Hash e.Path e.Size e.Updated = some p ∧
      f.ID.take 32 = p.ID.take 32) ∧
    (f ∈ latest ∨ f ∈ written1) ∧ (∀ x ∈ written, x ∈ written1) := by
  unfold indexFile at h
  split at h
  · simp at h
  · rename_i p hp
    split at h
    · rename_i l hl
      simp only [Except.ok.injEq, Prod.mk.injEq] at h
      obtain ⟨rfl, -, rfl⟩ := h
      have hpred := List.find?_some hl
      simp only [ChunkHashIndex, beq_iff_eq] at hpred
      exact ⟨⟨p, hp, hpred⟩, Or.inl (List.mem_of_find?_eq_some hl), fun x hx => hx⟩
    · split at h
      · simp at h
      · split at h
        · simp at h
        · split at h
          · simp at h
          · rename_i g hg
            split at h
            · simp at h
            · simp only [Except.ok.injEq, Prod.mk.injEq] at h
              obtain ⟨rfl, -, rfl⟩ := h
              have h32 := GenTrueID_take_32 env.Hash _ _ hg
              refine ⟨⟨p, hp, h32⟩, Or.inr ?_, ?_⟩
              · exact List.mem_cons_self _ _
              · intro x hx
                exact List.mem_cons_of_mem _ hx

theorem indexFiles_ok (env : Collaborators) (latest : List File) :
    ∀ (es : List TreeEntry) (objects : Store) (written : List File) (fs : List File)
      (objects1 : Store) (written1 : List File),
      indexFiles env latest es objects written = .ok (fs, objects1, written1) →
      List.Forall₂ (indexedAs env) es fs ∧
      (∀ f ∈ fs, f ∈ latest ∨ f ∈ written1) ∧ (∀ x ∈ written, x ∈ written1) := by
  intro es
  induction es with
  | nil =>
    intro objects written fs objects1 written1 h
    simp only [indexFiles, Except.ok.injEq, Prod.mk.injEq] at h
    obtain ⟨rfl, -, rfl⟩ := h
    exact ⟨List.Forall₂.nil, by simp, fun x hx => hx⟩
  | cons e es ih =>
    intro objects written fs objects1 written1 h
    simp only [indexFiles] at h
    split at h
    · simp at h
    · rename_i f objs2 wr2 hf
      split at h
      · simp at h
      · rename_i fs2 objs3 wr3 hrest
        simp only [Except.ok.injEq, Prod.mk.injEq] at h
        obtain ⟨rfl, -, rfl⟩ := h
        obtain ⟨hrel, hmem, hmono⟩ := indexFile_ok env latest objects written e f objs2 wr2 hf
        obtain ⟨hrel2, hmem2, hmono2⟩ := ih objs2 wr2 fs2 objs3 wr3 hrest
        refine ⟨List.Forall₂.cons hrel hrel2, ?_, fun x hx => hmono2 x (hmono x hx)⟩
        intro x hx
        rcases List.mem_cons.mp hx with rfl | hx
        · rcases hmem with h1 | h1
          · exact Or.inl h1
          · exact Or.inr (hmono2 _ h1)
        · exact hmem2 x hx

/-- The fast path: when every walked file has a latest `File` with its
provisional first 32 characters, and the latest `File`s with the same first 32
characters have the same `ID`, indexing reuses them and writes nothing. -/
theorem indexFiles_reuse (env : Collaborators) (latest : List File)
    (hdistinct : ∀ a ∈ latest, ∀ b ∈ latest, a.ID.take 32 = b.ID.take 32 → a.ID = b.ID)
    (objects : Store) (written : List File) :
    ∀ (es : List TreeEntry) (fs : List File), List.Forall₂ (indexedAs env) es fs →
      (∀ f ∈ fs, f ∈ latest) →
      ∃ fs2, indexFiles env latest es objects written = .ok (fs2, objects, written) ∧
        fs2.map (fun f => f.ID) = fs.map (fun f => f.ID) := by
  intro es fs hrel
  induction hrel with
  | nil => intro _; exact ⟨[], rfl, rfl⟩
  | @cons e f es fs hef _ ih =>
    intro hmem
    obtain ⟨fs2, hfs2, hids⟩ := ih (fun x hx => hmem x (List.mem_cons_of_mem _ hx))
    obtain ⟨p, hp, h32⟩ := hef
    have hf : f ∈ latest := hmem f (List.mem_cons_self _ _)
    cases hfind : latest.find?
        (fun l => l.ID.take ChunkHashIndex == p.ID.take ChunkHashIndex) with
    | none =>
      exfalso
      rw [List.find?_eq_none] at hfind
      exact hfind f hf (by simp only [ChunkHashIndex, beq_iff_eq]; exact h32)
    | some l =>
      have hl := List.find?_some hfind
      simp only [ChunkHashIndex, beq_iff_eq] at hl
      have hid : l.ID = f.ID :=
        hdistinct l (List.mem_of_find?_eq_some hfind) f hf (hl.trans h32.symm)
      refine ⟨l :: fs2, ?_, ?_⟩
      · simp only [indexFiles, indexFile, hp, hfind, hfs2]
      · simp only [List.map_cons, hid, hids]

theorem latestFiles_subset (r : Repo) : ∀ f ∈ r.latestFiles, f ∈ r.files := by
  intro f hf
  unfold Repo.latestFiles at hf
  split at hf
  · simp at hf
  · exact (List.mem_filter.mp hf).1

/-- What a successful `Repo.Index` did: the walk returned `File`s, the `Index`
lists their ids and is named by the digest, and the repository holds the new
objects, the `File`s written and the `Index` in front of the history. -/
theorem Index_ok_inv (env : Collaborators) (r : Repo) (tree : List TreeEntry)
    (memo : GoString) (now : Int) (idx : Index) (r1 : Repo)
    (h : Repo.Index env r tree memo now = .ok (idx, r1)) :
    ∃ fs objects written parent,
      indexFiles env r.latestFiles (tree.filter fun e => !env.shouldIgnore e.Path)
        r.objects r.files = .ok (fs, objects, written) ∧
      idx.Files = fs.map (fun f => f.ID) ∧
      idx.ID = env.indexDigest (fs.map fun f => f.ID) memo parent now ∧
      r1 = { objects := objects, files := written, history := idx :: r.history } := by
  unfold Repo.Index at h
  simp only at h
  split at h
  · simp at h
  · rename_i fs objects written hfs
    split at h
    · simp at h
    · simp only [Except.ok.injEq, Prod.mk.injEq] at h
      obtain ⟨rfl, rfl⟩ := h
      exact ⟨fs, objects, written, _, hfs, rfl, rfl, rfl⟩

set_option maxRecDepth 100000 in
theorem sampleIndex_first :
    Repo.Index sampleContentEnv emptyRepo sampleTree "Index 1".toList 0 =
      .ok (sampleIndex1, sampleRepo1) := by
  rfl

/-! ## Index, then checkout -/

theorem put_ok_inv (Hash : GoString → GoString) (s : Store) (c d : GoString) (s1 : Store)
    (h : Store.put Hash s c = .ok (d, s1)) :
    d = Hash c ∧ ((s.lookup (Hash c) = some c ∧ s1 = s) ∨
      (s.lookup (Hash c) = none ∧ s1 = (Hash c, c) :: s)) := by
  unfold Store.put at h
  simp only at h
  split at h
  · rename_i old hold
    split at h
    · rename_i heq
      simp only [Except.ok.injEq, Prod.mk.injEq] at h
      obtain ⟨rfl, rfl⟩ := h
      exact ⟨rfl, Or.inl ⟨by rw [hold, heq], rfl⟩⟩
    · simp at h
  · rename_i hnone
    simp only [Except.ok.injEq, Prod.mk.injEq] at h
    obtain ⟨rfl, rfl⟩ := h
    exact ⟨rfl, Or.inr ⟨hnone, rfl⟩⟩

/-- What was `put` can be fetched under the digest returned. -/
theorem put_get (Hash : GoString → GoString) (s : Store) (c d : GoString) (s1 : Store)
    (h : Store.put Hash s c = .ok (d, s1)) : Store.get Hash s1 d = .ok c := by
  obtain ⟨rfl, h1 | h1⟩ := put_ok_inv Hash s c d s1 h
  · obtain ⟨hl, rfl⟩ := h1
    simp [Store.get, hl]
  · obtain ⟨-, rfl⟩ := h1
    simp [Store.get, List.lookup_cons]

/-- A `put` leaves every object that could be fetched as it was. -/
theorem put_preserves (Hash : GoString → GoString) (s : Store) (c d : GoString) (s1 : Store)
    (h : Store.put Hash s c = .ok (d, s1)) (d0 b0 : GoString)
    (h0 : Store.get Hash s d0 = .ok b0) : Store.get Hash s1 d0 = .ok b0 := by
  obtain ⟨rfl, h1 | h1⟩ := put_ok_inv Hash s c _ s1 h
  · obtain ⟨-, rfl⟩ := h1
    exact h0
  · obtain ⟨hnone, rfl⟩ := h1
    have hne : d0 ≠ Hash c := by
      intro heq
      rw [heq] at h0
      simp [Store.get, hnone] at h0
    have hb : (d0 == Hash c) = false := by simpa using hne
    simp only [Store.get, List.lookup_cons, hb]
    exact h0

theorem fetchChunks_preserved (Hash : GoString → GoString) (s s1 : Store)
    (hmono : ∀ d0 b0, Store.get Hash s d0 = .ok b0 → Store.get Hash s1 d0 = .ok b0) :
    ∀ (ds : List GoString) (b : GoString),
      fetchChunks Hash s ds = .ok b → fetchChunks Hash s1 ds = .ok b := by
  intro ds
  induction ds with
  | nil => intro b h; exact h
  | cons d ds ih =>
    intro b h
    simp only [fetchChunks] at h ⊢
    split at h
    · simp at h
    · rename_i bytes hget
      split at h
      · simp at h
      · rename_i rest hrest
        rw [hmono d bytes hget, ih rest hrest]
        exact h

/-- The chunks stored by `putChunks` are fetched back, in order, from the
resulting store, which keeps every object that could be fetched before. -/
theorem putChunks_fetch (Hash : GoString → GoString) :
    ∀ (cs : List GoString) (s : Store) (ds : List GoString) (s1 : Store),
      putChunks Hash cs s = .ok (ds, s1) →
      fetchChunks Hash s1 ds = .ok cs.flatten ∧
      (∀ d0 b0, Store.get Hash s d0 = .ok b0 → Store.get Hash s1 d0 = .ok b0) := by
  intro cs
  induction cs with
  | nil =>
    intro s ds s1 h
    simp only [putChunks, Except.ok.injEq, Prod.mk.injEq] at h
    obtain ⟨rfl, rfl⟩ := h
    exact ⟨rfl, fun _ _ h => h⟩
  | cons c cs ih =>
    intro s ds s1 h
    simp only [putChunks] at h
    split at h
    · simp at h
    · rename_i d s2 hput
      split at h
      · simp at h
      · rename_i ds2 s3 hrest
        simp only [Except.ok.injEq, Prod.mk.injEq] at h
        obtain ⟨rfl, rfl⟩ := h
        obtain ⟨hfetch, hmono⟩ := ih s2 ds2 s3 hrest
        refine ⟨?_, fun d0 b0 h0 => hmono d0 b0 (put_preserves Hash s c d s2 hput d0 b0 h0)⟩
        simp only [fetchChunks, hmono d c (put_get Hash s c d s2 hput), hfetch,
          List.flatten_cons]

theorem NewFile_some_inv (Hash : GoString → GoString) (path : GoString) (size updated : Int)
    (p : File) (h : NewFile Hash path size updated = some p) :
    p.ID.take 22 = (Hash path).take 22 ∧ p.Path = path ∧ p.Updated = updated := by
  by_cases h22 : 22 ≤ (Hash path).length
  · rw [NewFile_eq Hash path size updated h22] at h
    simp only [Option.some.injEq] at h
    subst h
    exact ⟨fields_take_22 _ _ _ (take_22_length _ h22), rfl, rfl⟩
  · exfalso
    have hnone := genCheckID_none Hash
      { ID := [], Path := path, Size := size, Updated := updated, Chunks := [] }
      (by show (Hash path).length < 22; omega)
    simp only [NewFile, hnone] at h
    simp at h

/-- On a repository without latest files a walked file is read, chunked and
stored: the `File` returned has its path and modification time, its chunks are
fetched back as its content, and it is put in front of the `File`s written. -/
theorem indexFile_fresh (env : Collaborators) (hchunk : ∀ b, (env.chunk b).flatten = b)
    (objects : Store) (written : List File) (e : TreeEntry) (f : File) (objects1 : Store)
    (written1 : List File)
    (h : indexFile env [] objects written e = .ok (f, objects1, written1)) :
    (f.Path = e.Path ∧ f.Updated = e.Updated ∧
      ∃ c, e.Content = some c ∧ fetchChunks env.Hash objects1 f.Chunks = .ok c) ∧
    written1 = f :: written ∧
    (∀ d0 b0, Store.get env.Hash objects d0 = .ok b0 →
      Store.get env.Hash objects1 d0 = .ok b0) := by
  unfold indexFile at h
  split at h
  · simp at h
  · rename_i p hp
    obtain ⟨-, hpath, hupd⟩ := NewFile_some_inv _ _ _ _ p hp
    simp only [List.find?_nil] at h
    split at h
    · simp at h
    · rename_i content hcontent
      split at h
      · simp at h
      · rename_i digests objs1 hput
        split at h
        · simp at h
        · rename_i g hg
          split at h
          · simp at h
          · rename_i d2 objs2 hblob
            simp only [Except.ok.injEq, Prod.mk.injEq] at h
            obtain ⟨rfl, rfl, rfl⟩ := h
            obtain ⟨hgp, -, hgu, hgc⟩ := GenTrueID_fields env.Hash _ _ hg
            obtain ⟨hfetch, hmono⟩ := putChunks_fetch env.Hash _ _ _ _ hput
            have hmono2 := put_preserves env.Hash objs1 _ d2 _ hblob
            refine ⟨⟨hgp.trans hpath, hgu.trans hupd, content, hcontent, ?_⟩, rfl,
              fun d0 b0 h0 => hmono2 d0 b0 (hmono d0 b0 h0)⟩
            rw [hgc]
            have := fetchChunks_preserved env.Hash objs1 _ hmono2 digests _ hfetch
            rw [hchunk] at this
            exact this

theorem indexFiles_fresh (env : Collaborators) (hchunk : ∀ b, (env.chunk b).flatten = b) :
    ∀ (es : List TreeEntry) (objects : Store) (written : List File) (fs : List File)
      (objects1 : Store) (written1 : List File),
      indexFiles env [] es objects written = .ok (fs, objects1, written1) →
      List.Forall₂ (storedAs env.Hash objects1) es fs ∧
      written1 = fs.reverse ++ written ∧
      (∀ d0 b0, Store.get env.Hash objects d0 = .ok b0 →
        Store.get env.Hash objects1 d0 = .ok b0) := by
  intro es
  induction es with
  | nil =>
    intro objects written fs objects1 written1 h
    simp only [indexFiles, Except.ok.injEq, Prod.mk.injEq] at h
    obtain ⟨rfl, rfl, rfl⟩ := h
    exact ⟨List.Forall₂.nil, by simp, fun _ _ h => h⟩
  | cons e es ih =>
    intro objects written fs objects1 written1 h
    simp only [indexFiles] at h
    split at h
    · simp at h
    · rename_i f objs2 wr2 hf
      split at h
      · simp at h
      · rename_i fs2 objs3 wr3 hrest
        simp only [Except.ok.injEq, Prod.mk.injEq] at h
        obtain ⟨rfl, rfl, rfl⟩ := h
        obtain ⟨⟨hp, hu, c, hc, hfetch⟩, hwr, hmono⟩ :=
          indexFile_fresh env hchunk objects written e f objs2 wr2 hf
        obtain ⟨hrel2, hwr2, hmono2⟩ := ih objs2 wr2 fs2 _ _ hrest
        refine ⟨List.Forall₂.cons ⟨hp, hu, c, hc, ?_⟩ hrel2, ?_,
          fun d0 b0 h0 => hmono2 d0 b0 (hmono d0 b0 h0)⟩
        · exact fetchChunks_preserved env.Hash objs2 _ hmono2 _ _ hfetch
        · rw [hwr2, hwr]
          simp

theorem find_by_ID (fs rest : List File) (hnodup : (fs.map fun f => f.ID).Nodup) (f : File)
    (hf : f ∈ fs) : (fs.reverse ++ rest).find? (fun x => x.ID == f.ID) = some f := by
  rw [List.find?_append]
  cases hfind : fs.reverse.find? (fun x => x.ID == f.ID) with
  | none =>
    exfalso
    rw [List.find?_eq_none] at hfind
    exact hfind f (List.mem_reverse.mpr hf) (by simp)
  | some x =>
    have hx : x ∈ fs := List.mem_reverse.mp (List.mem_of_find?_eq_some hfind)
    have hid := List.find?_some hfind
    simp only [beq_iff_eq] at hid
    have : x = f := List.inj_on_of_nodup_map hnodup hx hf hid
    rw [this]
    rfl

theorem resolveFiles_eq (fs rest : List File) (hnodup : (fs.map fun f => f.ID).Nodup) :
    ∀ sub : List File, (∀ f ∈ sub, f ∈ fs) →
      resolveFiles (fs.reverse ++ rest) (sub.map fun f => f.ID) = .ok sub := by
  intro sub
  induction sub with
  | nil => intro _; rfl
  | cons f sub ih =>
    intro hsub
    simp only [List.map_cons, resolveFiles,
      find_by_ID fs rest hnodup f (hsub f (List.mem_cons_self _ _)),
      ih (fun x hx => hsub x (List.mem_cons_of_mem _ hx))]

/-- Restoring `File`s with pairwise different paths, none of them in the
directory yet: the directory gains, for each `File`, one file with its path,
its modification time and the concatenation of its chunks. -/
theorem restoreFiles_mem (Hash : GoString → GoString) (s : Store) :
    ∀ (fs : List File) (dir : List DirFile),
      (∀ f ∈ fs, ∃ c, fetchChunks Hash s f.Chunks = .ok c) →
      (fs.map fun f => f.Path).Nodup →
      (∀ f ∈ fs, ∀ d ∈ dir, d.Path ≠ f.Path) →
      ∃ dir1, restoreFiles Hash s fs dir = .ok dir1 ∧
        ∀ d, d ∈ dir1 ↔ d ∈ dir ∨ ∃ f ∈ fs, d.Path = f.Path ∧ d.Updated = f.Updated ∧
          fetchChunks Hash s f.Chunks = .ok d.Content := by
  intro fs
  induction fs with
  | nil =>
    intro dir _ _ _
    exact ⟨dir, rfl, by simp⟩
  | cons f fs ih =>
    intro dir hfetch hnodup hdisj
    obtain ⟨c, hc⟩ := hfetch f (List.mem_cons_self _ _)
    rw [List.map_cons, List.nodup_cons] at hnodup
    have hkeep : dir.filter (fun x => x.Path != f.Path) = dir := by
      rw [List.filter_eq_self]
      intro d hd
      simpa using hdisj f (List.mem_cons_self _ _) d hd
    obtain ⟨dir1, hdir1, hmem⟩ := ih
      ({ Path := f.Path, Updated := f.Updated, Content := c } :: dir)
      (fun x hx => hfetch x (List.mem_cons_of_mem _ hx)) hnodup.2 (by
        intro x hx d hd
        rcases List.mem_cons.mp hd with rfl | hd
        · intro heq
          exact hnodup.1 (List.mem_map.mpr ⟨x, hx, heq.symm⟩)
        · exact hdisj x (List.mem_cons_of_mem _ hx) d hd)
    refine ⟨dir1, ?_, ?_⟩
    · simp only [restoreFiles, hc, writeFile, hkeep]
      exact hdir1
    · intro d
      rw [hmem d, List.mem_cons]
      constructor
      · rintro ((rfl | hd) | ⟨x, hx, h⟩)
        · exact Or.inr ⟨f, List.mem_cons_self _ _, rfl, rfl, hc⟩
        · exact Or.inl hd
        · exact Or.inr ⟨x, List.mem_cons_of_mem _ hx, h⟩
      · rintro (hd | ⟨x, hx, hp, hu, hcx⟩)
        · exact Or.inl (Or.inr hd)
        · rcases List.mem_cons.mp hx with rfl | hx
          · left; left
            rw [hc] at hcx
            simp only [Except.ok.injEq] at hcx
            cases d
            simp only at hp hu hcx
            simp [hp, hu, hcx]
          · exact Or.inr ⟨x, hx, hp, hu, hcx⟩

theorem forall₂_map_eq {α β γ : Type} (R : α → β → Prop) (k1 : α → γ) (k2 : β → γ)
    (hk : ∀ a b, R a b → k1 a = k2 b) :
    ∀ (l1 : List α) (l2 : List β), List.Forall₂ R l1 l2 → l1.map k1 = l2.map k2 := by
  intro l1 l2 h
  induction h with
  | nil => rfl
  | cons hab _ ih => simp only [List.map_cons, hk _ _ hab, ih]

theorem forall₂_right {α β : Type} (R : α → β → Prop) :
    ∀ (l1 : List α) (l2 : List β), List.Forall₂ R l1 l2 →
      (∀ b ∈ l2, ∃ a ∈ l1, R a b) ∧ (∀ a ∈ l1, ∃ b ∈ l2, R a b) := by
  intro l1 l2 h
  induction h with
  | nil => simp
  | cons hab _ ih =>
    constructor
    · intro b hb
      rcases List.mem_cons.mp hb with rfl | hb
      · exact ⟨_, List.mem_cons_self _ _, hab⟩
      · obtain ⟨a, ha, hr⟩ := ih.1 b hb
        exact ⟨a, List.mem_cons_of_mem _ ha, hr⟩
    · intro a ha
      rcases List.mem_cons.mp ha with rfl | ha
      · exact ⟨_, List.mem_cons_self _ _, hab⟩
      · obtain ⟨b, hb, hr⟩ := ih.2 a ha
        exact ⟨b, List.mem_cons_of_mem _ hb, hr⟩

/-- C12, as amended. On the models of sections 4.4 and 4.5: when a data tree is
indexed on a repository that has no `Index` yet and that `Index` is checked out
into an empty directory, the directory holds exactly the files of the tree
that are not ignored, each at its relative path with its modification time
and its content, byte for byte, and nothing is removed.  Assumed: the chunker
concatenates back to the content, and no two walked files share the first 22
characters of the hash of their paths. -/
theorem checkout_restores_indexed_tree (env : Collaborators) (r0 : Repo)
    (tree : List TreeEntry) (memo : GoString) (now : Int) (idx : Index) (r1 : Repo)
    (hchunk : ∀ b, (env.chunk b).flatten = b)
    (hfresh : r0.history = [])
    (hnocoll : ((tree.filter fun e => !env.shouldIgnore e.Path).map
      fun e => (env.Hash e.Path).take 22).Nodup)
    (hindex : Repo.Index env r0 tree memo now = .ok (idx, r1)) :
    ∃ dir written removed, Repo.Checkout env r1 idx.ID [] = .ok (dir, written, removed) ∧
      (∀ d, d ∈ dir ↔ ∃ e ∈ tree, env.shouldIgnore e.Path = false ∧ d.Path = e.Path ∧
        d.Updated = e.Updated ∧ e.Content = some d.Content) ∧
      (∀ d ∈ dir, ∃ e ∈ tree, d.Path = e.Path ∧
        e.Content.map env.Hash = some (env.Hash d.Content)) ∧
      removed = 0 := by
  obtain ⟨fs, objects1, written1, parent, hfs, hfiles, -, hr1⟩ :=
    Index_ok_inv env r0 tree memo now idx r1 hindex
  have hlatest : r0.latestFiles = [] := by simp [Repo.latestFiles, hfresh]
  rw [hlatest] at hfs
  obtain ⟨hrel, -, -⟩ := indexFiles_ok env _ _ _ _ _ _ _ hfs
  obtain ⟨hstored, hwritten, -⟩ := indexFiles_fresh env hchunk _ _ _ _ _ _ hfs
  -- ids and paths of the indexed files are pairwise different
  have hkey : (tree.filter fun e => !env.shouldIgnore e.Path).map
      (fun e => (env.Hash e.Path).take 22) = fs.map fun f => f.ID.take 22 := by
    apply forall₂_map_eq (indexedAs env) _ _ _ _ _ hrel
    rintro e f ⟨p, hp, h32⟩
    obtain ⟨h22, -, -⟩ := NewFile_some_inv _ _ _ _ p hp
    have h := congrArg (List.take 22) h32
    simp only [List.take_take] at h
    rw [← h22]
    exact h.symm
  have hpaths : (tree.filter fun e => !env.shouldIgnore e.Path).map (fun e => e.Path) =
      fs.map fun f => f.Path :=
    forall₂_map_eq (storedAs env.Hash objects1) _ _ (fun e f h => h.1.symm) _ _ hstored
  have hidnodup : (fs.map fun f => f.ID).Nodup := by
    have h : ((fs.map fun f => f.ID).map (List.take 22)).Nodup := by
      rw [List.map_map]
      have hk : (List.take 22 ∘ fun f : File => f.ID) = fun f => f.ID.take 22 := rfl
      rw [hk, ← hkey]
      exact hnocoll
    exact List.Nodup.of_map _ h
  have hpathnodup : (fs.map fun f => f.Path).Nodup := by
    have h : (((tree.filter fun e => !env.shouldIgnore e.Path).map fun e => e.Path).map
        fun q => (env.Hash q).take 22).Nodup := by
      rw [List.map_map]
      exact hnocoll
    rw [← hpaths]
    exact List.Nodup.of_map _ h
  -- the three steps of the checkout
  have hhist : r1.history.find? (fun i => i.ID == idx.ID) = some idx := by
    rw [hr1]
    simp
  have hres : resolveFiles r1.files idx.Files = .ok fs := by
    rw [hr1, hfiles]
    show resolveFiles written1 _ = _
    rw [hwritten]
    exact resolveFiles_eq fs r0.files hidnodup fs (fun f hf => hf)
  obtain ⟨hright, hleft⟩ := forall₂_right _ _ _ hstored
  obtain ⟨dir1, hdir1, hmem⟩ := restoreFiles_mem env.Hash objects1 fs []
    (fun f hf => by
      obtain ⟨e, -, -, -, c, -, hc⟩ := hright f hf
      exact ⟨c, hc⟩)
    hpathnodup (by simp)
  have hobj : r1.objects = objects1 := by rw [hr1]
  have hkept : dir1.filter (fun d =>
      env.shouldIgnore d.Path || fs.any fun f => f.Path == d.Path) = dir1 := by
    rw [List.filter_eq_self]
    intro d hd
    rcases (hmem d).mp hd with h | ⟨f, hf, hp, -, -⟩
    · simp at h
    · simp only [Bool.or_eq_true, List.any_eq_true, beq_iff_eq]
      exact Or.inr ⟨f, hf, hp.symm⟩
  have hchar : ∀ d, d ∈ dir1 ↔ ∃ e ∈ tree, env.shouldIgnore e.Path = false ∧
      d.Path = e.Path ∧ d.Updated = e.Updated ∧ e.Content = some d.Content := by
    intro d
    rw [hmem d]
    constructor
    · rintro (h | ⟨f, hf, hp, hu, hc⟩)
      · simp at h
      · obtain ⟨e, he, hfp, hfu, c, hec, hfc⟩ := hright f hf
        rw [hfc] at hc
        simp only [Except.ok.injEq] at hc
        have he2 := List.mem_filter.mp he
        refine ⟨e, he2.1, by simpa using he2.2, hp.trans hfp, hu.trans hfu, ?_⟩
        rw [hec, hc]
    · rintro ⟨e, he, hign, hp, hu, hc⟩
      have he2 : e ∈ tree.filter fun e => !env.shouldIgnore e.Path :=
        List.mem_filter.mpr ⟨he, by simp [hign]⟩
      obtain ⟨f, hf, hfp, hfu, c, hec, hfc⟩ := hleft e he2
      rw [hc] at hec
      simp only [Option.some.injEq] at hec
      exact Or.inr ⟨f, hf, hp.trans hfp.symm, hu.trans hfu.symm, by rw [hfc, hec]⟩
  refine ⟨dir1, fs.length, 0, ?_, hchar, ?_, rfl⟩
  · unfold Repo.Checkout
    simp only [hhist, hres, hobj, hdir1, hkept, Nat.sub_self]
  · intro d hd
    obtain ⟨e, he, -, hp, -, hc⟩ := (hchar d).mp hd
    exact ⟨e, he, hp, by rw [hc]; rfl⟩

theorem sampleChunk_flatten (b : GoString) : (sampleContentEnv.chunk b).flatten = b := by
  simp [sampleContentEnv]

set_option maxRecDepth 100000 in
theorem sampleCheckout_first :
    Repo.Checkout sampleContentEnv sampleRepo1 sampleIndex1.ID [] =
      .ok ([{ Path := "foo".toList, Updated := 1700000000123, Content := "hello".toList }],
        1, 0) := by
  rfl

/-- C12 as amended, on `emptyRepo` and `sampleTree`: the checkout holds `foo` with
the content `hello`. -/
theorem checkout_restores_indexed_tree_witness :
    ((∀ b, (sampleContentEnv.chunk b).flatten = b) ∧ emptyRepo.history = [] ∧
      ((sampleTree.filter fun e => !sampleContentEnv.shouldIgnore e.Path).map
        fun e => (sampleContentEnv.Hash e.Path).take 22).Nodup ∧
      Repo.Index sampleContentEnv emptyRepo sampleTree "Index 1".toList 0 =
        .ok (sampleIndex1, sampleRepo1)) ∧
    Repo.Checkout sampleContentEnv sampleRepo1 sampleIndex1.ID [] =
      .ok ([{ Path := "foo".toList, Updated := 1700000000123, Content := "hello".toList }],
        1, 0) ∧
    ∃ dir written removed,
      Repo.Checkout sampleContentEnv sampleRepo1 sampleIndex1.ID [] =
        .ok (dir, written, removed) ∧
      (∀ d, d ∈ dir ↔ ∃ e ∈ sampleTree, sampleContentEnv.shouldIgnore e.Path = false ∧
        d.Path = e.Path ∧ d.Updated = e.Updated ∧ e.Content = some d.Content) ∧
      (∀ d ∈ dir, ∃ e ∈ sampleTree, d.Path = e.Path ∧
        e.Content.map sampleContentEnv.Hash = some (sampleContentEnv.Hash d.Content)) ∧
      removed = 0 :=
  ⟨⟨sampleChunk_flatten, rfl, by decide, sampleIndex_first⟩, sampleCheckout_first,
    checkout_restores_indexed_tree sampleContentEnv emptyRepo sampleTree "Index 1".toList 0
      sampleIndex1 sampleRepo1 sampleChunk_flatten rfl (by decide) sampleIndex_first⟩

set_option maxRecDepth 100000 in
theorem sampleIndex_second :
    Repo.Index sampleContentEnv sampleRepo1 sampleTreeChanged "Index 2".toList 1 =
      .ok (sampleIndex2, sampleRepo2) := by
  rfl

set_option maxRecDepth 100000 in
theorem sampleCheckout_second :
    Repo.Checkout sampleContentEnv sampleRepo2 sampleIndex2.ID [] =
      .ok ([{ Path := "foo".toList, Updated := 1700000000123, Content := "hello".toList }],
        1, 0) := by
  rfl

/-- C12 as stated fails on the models of sections 4.4 and 4.5.  The tree
`sampleTree` holds `foo` and the ignored `bar`: its checkout holds `foo` alone,
`bar` is missing.  And after `foo` is rewritten within the same second, the next
`Index` reuses the stored `File`, so its checkout holds the former content
`hello`, not `HELLO world`. -/
theorem checkout_differs_from_tree :
    (sampleTree.map (fun e => e.Path) = ["foo".toList, "bar".toList] ∧
      Repo.Index sampleContentEnv emptyRepo sampleTree "Index 1".toList 0 =
        .ok (sampleIndex1, sampleRepo1) ∧
      Repo.Checkout sampleContentEnv sampleRepo1 sampleIndex1.ID [] =
        .ok ([{ Path := "foo".toList, Updated := 1700000000123,
                Content := "hello".toList }], 1, 0)) ∧
    (sampleTreeChanged.map (fun e => (e.Path, e.Content)) =
        [("foo".toList, some "HELLO world".toList)] ∧
      Repo.Index sampleContentEnv sampleRepo1 sampleTreeChanged "Index 2".toList 1 =
        .ok (sampleIndex2, sampleRepo2) ∧
      Repo.Checkout sampleContentEnv sampleRepo2 sampleIndex2.ID [] =
        .ok ([{ Path := "foo".toList, Updated := 1700000000123,
                Content := "hello".toList }], 1, 0)) :=
  ⟨⟨rfl, sampleIndex_first, sampleCheckout_first⟩,
    ⟨rfl, sampleIndex_second, sampleCheckout_second⟩⟩

/-! ## Indexing an untouched tree again -/

theorem indexedAs_fingerprints (env : Collaborators) (es : List TreeEntry) (fs : List File)
    (hrel : List.Forall₂ (indexedAs env) es fs) :
    es.map (fun e => (env.Hash e.Path).take 22) = fs.map fun f => f.ID.take 22 := by
  apply forall₂_map_eq (indexedAs env) _ _ _ _ _ hrel
  rintro e f ⟨p, hp, h32⟩
  obtain ⟨h22, -, -⟩ := NewFile_some_inv _ _ _ _ p hp
  have h := congrArg (List.take 22) h32
  simp only [List.take_take] at h
  rw [← h22]
  exact h.symm

/-- C11, as amended. On the model of section 4.4, after a successful `Repo.Index`
a second one over the same data tree succeeds, reuses every `File` and writes
no object and no `File`: its member ids are those of the first `Index`.  It is
a new `Index`, with the given memo and time and the first `Index` as parent,
named by the digest of its member ids and of those.  Assumed: no two walked
files share the first 22 characters of the hash of their paths. -/
theorem reindex_reuses_files (env : Collaborators) (r0 : Repo) (tree : List TreeEntry)
    (memo1 memo2 : GoString) (now1 now2 : Int) (idx1 : Index) (r1 : Repo)
    (hfirst : Repo.Index env r0 tree memo1 now1 = .ok (idx1, r1))
    (hnocoll : ((tree.filter fun e => !env.shouldIgnore e.Path).map
      fun e => (env.Hash e.Path).take 22).Nodup) :
    ∃ idx2 r2, Repo.Index env r1 tree memo2 now2 = .ok (idx2, r2) ∧
      idx2.Files = idx1.Files ∧
      idx2.ID = env.indexDigest idx1.Files memo2 idx1.ID now2 ∧
      idx2.Memo = memo2 ∧ idx2.Parent = idx1.ID ∧ idx2.Created = now2 ∧
      r2.objects = r1.objects ∧ r2.files = r1.files := by
  obtain ⟨fs1, objects1, written1, parent1, hfs1, hfiles1, -, hr1⟩ :=
    Index_ok_inv env r0 tree memo1 now1 idx1 r1 hfirst
  obtain ⟨hrel, hmem, hmono⟩ := indexFiles_ok env _ _ _ _ _ _ _ hfs1
  have hnodup : (fs1.map fun f => f.ID.take 22).Nodup := by
    rw [← indexedAs_fingerprints env _ fs1 hrel]
    exact hnocoll
  have hlatest : r1.latestFiles = written1.filter fun f => f.ID ∈ idx1.Files := by
    rw [hr1]; rfl
  have hin : ∀ f ∈ fs1, f ∈ r1.latestFiles := by
    intro f hf
    rw [hlatest, List.mem_filter]
    constructor
    · rcases hmem f hf with h | h
      · exact hmono f (latestFiles_subset r0 f h)
      · exact h
    · rw [hfiles1]
      exact decide_eq_true (List.mem_map_of_mem (fun f => f.ID) hf)
  have hdistinct : ∀ a ∈ r1.latestFiles, ∀ b ∈ r1.latestFiles,
      a.ID.take 32 = b.ID.take 32 → a.ID = b.ID := by
    intro a ha b hb hab
    rw [hlatest, List.mem_filter, hfiles1] at ha hb
    obtain ⟨x, hx, hxa⟩ := List.mem_map.mp (of_decide_eq_true ha.2)
    obtain ⟨y, hy, hyb⟩ := List.mem_map.mp (of_decide_eq_true hb.2)
    have h22 : x.ID.take 22 = y.ID.take 22 := by
      have h := congrArg (List.take 22) hab
      simp only [List.take_take] at h
      rw [hxa, hyb]
      exact h
    have hxy : x = y := List.inj_on_of_nodup_map hnodup hx hy h22
    rw [← hxa, ← hyb, hxy]
  obtain ⟨fs2, hfs2, hids⟩ :=
    indexFiles_reuse env r1.latestFiles hdistinct objects1 written1 _ fs1 hrel hin
  have hobj : r1.objects = objects1 := by rw [hr1]
  have hfl : r1.files = written1 := by rw [hr1]
  have hhist : r1.history = idx1 :: r0.history := by rw [hr1]
  refine ⟨{ ID := env.indexDigest (fs2.map fun f => f.ID) memo2 idx1.ID now2, Memo := memo2,
            Parent := idx1.ID, Created := now2, Files := fs2.map fun f => f.ID },
    { objects := objects1, files := written1,
      history := { ID := env.indexDigest (fs2.map fun f => f.ID) memo2 idx1.ID now2,
                   Memo := memo2, Parent := idx1.ID, Created := now2,
                   Files := fs2.map fun f => f.ID } :: r1.history },
    ?_, ?_, ?_, rfl, rfl, rfl, hobj.symm, hfl.symm⟩
  · unfold Repo.Index
    simp only [hobj, hfl, hfs2, hhist]
    simp
  · show fs2.map (fun f => f.ID) = idx1.Files
    rw [hfiles1, hids]
  · show env.indexDigest (fs2.map fun f => f.ID) memo2 idx1.ID now2 = _
    rw [hfiles1, hids]

set_option maxRecDepth 100000 in
theorem sampleEnvIndex_first :
    Repo.Index sampleEnv emptyRepo sampleTree "Index 1".toList 0 =
      .ok (sampleEnvIndex1, sampleEnvRepo1) := by
  rfl

set_option maxRecDepth 100000 in
theorem sampleEnvIndex_second :
    Repo.Index sampleEnv sampleEnvRepo1 sampleTree "Index 2".toList 1 =
      .ok (sampleEnvIndex2, sampleEnvRepo2) := by
  rfl

set_option maxRecDepth 100000 in
theorem sampleEnvIndex2_digest :
    sampleEnvIndex2.ID =
      sampleEnv.indexDigest sampleEnvIndex1.Files "Index 2".toList sampleEnvIndex1.ID 1 := by
  rfl

/-- C11 as stated fails on the model of section 4.4, at the calls of
`TestIndexCheckout`: the tree with `foo` (and the ignored `bar`) is indexed on a
repository without history with the memo `Index 1`, then again, untouched, with
the memo `Index 2`.  The second `Index` has the member ids of the first and
nothing is written, but it is a new `Index` (parent: the first one) and its `ID`,
`50e8ee79f938677002e29d79f30da22707c8a4a3`, is not the first one's,
`ecd8774fdec63b1d1e55f120ec7c14dcfb54e2dc`. -/
theorem reindex_untouched_tree_new_ID :
    Repo.Index sampleEnv emptyRepo sampleTree "Index 1".toList 0 =
      .ok (sampleEnvIndex1, sampleEnvRepo1) ∧
    Repo.Index sampleEnv sampleEnvRepo1 sampleTree "Index 2".toList 1 =
      .ok (sampleEnvIndex2, sampleEnvRepo2) ∧
    sampleEnvIndex2.Files = sampleEnvIndex1.Files ∧
    sampleEnvRepo2.objects = sampleEnvRepo1.objects ∧
    sampleEnvRepo2.files = sampleEnvRepo1.files ∧
    sampleEnvIndex2.Parent = sampleEnvIndex1.ID ∧
    sampleEnvIndex2.ID =
      sampleEnv.indexDigest sampleEnvIndex1.Files "Index 2".toList sampleEnvIndex1.ID 1 ∧
    sampleEnvIndex2.ID ≠ sampleEnvIndex1.ID :=
  ⟨sampleEnvIndex_first, sampleEnvIndex_second, rfl, rfl, rfl, rfl, sampleEnvIndex2_digest,
    by decide⟩

/-- C11 as amended, on `emptyRepo` and `sampleTree` with `sampleEnv`: the second
`Index`, with the memo `Index 2` at time 1, has the member ids of the first. -/
theorem reindex_reuses_files_witness :
    (Repo.Index sampleEnv emptyRepo sampleTree "Index 1".toList 0 =
        .ok (sampleEnvIndex1, sampleEnvRepo1) ∧
      ((sampleTree.filter fun e => !sampleEnv.shouldIgnore e.Path).map
        fun e => (sampleEnv.Hash e.Path).take 22).Nodup) ∧
    ∃ idx2 r2, Repo.Index sampleEnv sampleEnvRepo1 sampleTree "Index 2".toList 1 =
        .ok (idx2, r2) ∧
      idx2.Files = sampleEnvIndex1.Files ∧
      idx2.ID = sampleEnv.indexDigest sampleEnvIndex1.Files "Index 2".toList
        sampleEnvIndex1.ID 1 ∧
      idx2.Memo = "Index 2".toList ∧ idx2.Parent = sampleEnvIndex1.ID ∧ idx2.Created = 1 ∧
      r2.objects = sampleEnvRepo1.objects ∧ r2.files = sampleEnvRepo1.files :=
  ⟨⟨sampleEnvIndex_first, by decide⟩,
    reindex_reuses_files sampleEnv emptyRepo sampleTree "Index 1".toList "Index 2".toList
      0 1 sampleEnvIndex1 sampleEnvRepo1 sampleEnvIndex_first (by decide)⟩

end Dejavu
